import Mathlib

/-!
# Wire framing and bulk transfer of `src/common/utils.c`

A shallow embedding of `sendData`, `recvData`, `pushFile` and `pullFile`.

* Bytes (`unsigned char`) are natural numbers; a C string is the run of bytes in front of
  the first `0`.
* The outcome of every `read(2)` / `write(2)` call is an input of the model: the
  environment is a script of outcomes, consumed one call at a time.
* `utils.h` and `crc.h` are not among the sources.  The widths and the two status texts
  are the fields of `Config`, `computeCRC` is a parameter of the functions that call it.
-/

namespace Ftp

/-! ## Configuration (`utils.h`) -/

/-- The constants of `utils.h` that `utils.c` uses: the three field widths and the two
reserved status texts. -/
structure Config where
  CRC_SIZE : Nat
  INSTR_SIZE : Nat
  BUFFER_SIZE : Nat
  STATUS_ERR : List Nat
  STATUS_EMPTY : List Nat
deriving DecidableEq, Repr

/-- Modelled from the spec: the macro `DATA_OFFSET` of the missing `utils.h`; the data
field starts behind the checksum field and the instruction field. -/
def Config.DATA_OFFSET (cfg : Config) : Nat := cfg.CRC_SIZE + cfg.INSTR_SIZE

/-- Modelled from the spec: the macro `PACKET_SIZE` of the missing `utils.h`; the total
frame size is `checksum_width + instruction_width + data_width`. -/
def Config.PACKET_SIZE (cfg : Config) : Nat := cfg.DATA_OFFSET + cfg.BUFFER_SIZE

/-- Modelled from the spec: the widths of the scenario of section 8 (checksum 4,
instruction 8, data 16) and the status texts `ERROR` and `EMPTY` of section 3, standing
for the missing `utils.h` wherever a concrete configuration is evaluated. -/
def specConfig : Config where
  CRC_SIZE := 4
  INSTR_SIZE := 8
  BUFFER_SIZE := 16
  STATUS_ERR := [69, 82, 82, 79, 82]
  STATUS_EMPTY := [69, 77, 80, 84, 89]

/-- Modelled from the spec: a stand-in for `computeCRC` of the missing `crc.h`, a
deterministic digest that fits the 4 hexadecimal characters of the checksum field: a
positional byte sum of the first `len` bytes, modulo `2^16`.  Used only where a concrete
frame is evaluated. -/
def sampleCRC (buf : List Nat) (len : Int) : Int :=
  (((buf.take len.toNat).foldl (fun acc b => (acc * 31 + b + 1) % 65536) 0 : Nat) : Int)

/-! ## C library primitives -/

/-- The C string stored at a pointer: the bytes in front of the first `0`. -/
def cstr (mem : List Nat) : List Nat := mem.takeWhile (fun b => b != 0)

/-- The value of `strlen(s)`. -/
def strlen (mem : List Nat) : Nat := (cstr mem).length

/-- The string `snprintf(dst, n, "%s", src)` leaves in `dst`: the old content is replaced
by the first `n - 1` characters of the string at `src`. -/
def snprintf_s (_dst : List Nat) (n : Nat) (src : List Nat) : List Nat :=
  (cstr src).take (n - 1)

/-- The conversion `%-*s`: the string, left-justified, filled with spaces up to the
width. -/
def padRight (width : Nat) (s : List Nat) : List Nat :=
  s ++ List.replicate (width - s.length) 32

/-- The test `strncmp(a, b, n) == 0`: the first `n` characters agree, the comparison stopping
behind a terminator. -/
def strncmpEq (a b : List Nat) (n : Nat) : Bool :=
  decide ((cstr a).take n = (cstr b).take n)

/-- The lowercase character of one hexadecimal digit. -/
def hexChar (d : Nat) : Nat := if d < 10 then 48 + d else 87 + d

/-- The hexadecimal digits of `n`, most significant first, at least one digit; `fuel`
bounds the number of digits (8 are enough for an `unsigned int`). -/
def hexDigits : Nat → Nat → List Nat
  | 0, _ => []
  | fuel + 1, n => if n < 16 then [n] else hexDigits fuel (n / 16) ++ [n % 16]

/-- The conversion `%.4x` applied to an `int`: the value read as a 32-bit `unsigned int`,
in lowercase hexadecimal, filled with `0` on the left up to 4 digits and never cut. -/
def printf_x4 (v : Int) : List Nat :=
  let ds := hexDigits 8 (v % 4294967296).toNat
  List.replicate (4 - ds.length) 48 ++ ds.map hexChar

/-- The value of a hexadecimal digit character, either case. -/
def hexVal (c : Nat) : Option Nat :=
  if 48 ≤ c ∧ c ≤ 57 then some (c - 48)
  else if 97 ≤ c ∧ c ≤ 102 then some (c - 87)
  else if 65 ≤ c ∧ c ≤ 70 then some (c - 55)
  else none

/-- The digit loop of `strtol`: accumulate while the next character is a digit. -/
def strtolDigits : List Nat → Nat → Nat
  | [], acc => acc
  | c :: cs, acc =>
    match hexVal c with
    | some d => strtolDigits cs (acc * 16 + d)
    | none => acc

/-- The function `isspace` in the C locale. -/
def isspace (c : Nat) : Bool := c == 32 || (9 ≤ c && c ≤ 13)

/-- The optional `0x` / `0X` of base 16, skipped when a digit follows it. -/
def strtolSkip0x : List Nat → List Nat
  | 48 :: x :: h :: t =>
    if (x == 120 || x == 88) && (hexVal h).isSome then h :: t else 48 :: x :: h :: t
  | s => s

/-- The value of `strtol(s, NULL, 16)` with a 64-bit `long`: white space, an optional sign, an optional
`0x` in front of a digit, then the digits; out-of-range values saturate. -/
def strtol16 (s : List Nat) : Int :=
  let s := (cstr s).dropWhile isspace
  let neg := s.head? == some 45
  let s := if s.head? == some 45 || s.head? == some 43 then s.tail else s
  let v : Int := (strtolDigits (strtolSkip0x s) 0 : Nat)
  let v := if neg then -v else v
  if v < -9223372036854775808 then -9223372036854775808
  else if 9223372036854775807 < v then 9223372036854775807
  else v

/-- Conversion of an integer value to `int` (32 bits, two's complement). -/
def toInt32 (v : Int) : Int := (v + 2147483648) % 4294967296 - 2147483648

/-! ## System calls -/

/-- What one `read(2)` call did: it delivered bytes (none at end of stream), or it failed
with `-1`. -/
inductive ReadOutcome where
  | bytes (bs : List Nat)
  | error
deriving DecidableEq, Repr

/-- The value `read` returns. -/
def ReadOutcome.size : ReadOutcome → Int
  | .bytes bs => (bs.length : Int)
  | .error => -1

/-- The buffer after the call: the delivered bytes replace the front of the buffer. -/
def ReadOutcome.fill : ReadOutcome → List Nat → List Nat
  | .bytes bs, buf => bs ++ buf.drop bs.length
  | .error, buf => buf

/-- What one `write(2)` call did: it accepted up to `k` of the bytes offered, or it
returned `-1` with `errno == EINTR`, or it returned `-1` with another `errno`. -/
inductive WriteOutcome where
  | wrote (k : Nat)
  | eintr
  | fail
deriving DecidableEq, Repr

/-- The bytes a `write` of the `n` bytes at offset `p` of `buf` hands over. -/
def WriteOutcome.accepted (o : WriteOutcome) (buf : List Nat) (p n : Nat) : List Nat :=
  match o with
  | .wrote k => ((buf.drop p).take n).take k
  | .eintr => []
  | .fail => []

/-- The value `write` returns for a request of `n` bytes. -/
def WriteOutcome.ret (o : WriteOutcome) (n : Nat) : Int :=
  match o with
  | .wrote k => (min k n : Nat)
  | .eintr => -1
  | .fail => -1

/-- How a modelled call ends: it returns, or it is still waiting for the environment when
the script of outcomes ends, or it touches memory outside the array it was given. -/
inductive Run (α : Type) where
  | done (a : α)
  | blocked
  | outOfBounds
deriving DecidableEq, Repr

/-! ## `sendData` -/

/-- The content of the local array after `vsprintf(buffer, fmt, args)`, `instr` being the
formatted instruction.  `vsprintf` writes the whole string and its terminator whatever the
size of `char buffer[INSTR_SIZE + 1]`: a string of more than `INSTR_SIZE` characters is
written past the end of the array. -/
def sendData.buffer (cfg : Config) (instr : List Nat) : Run (List Nat) :=
  if cfg.INSTR_SIZE < strlen instr then .outOfBounds else .done (cstr instr)

/-- The string `snprintf(instruction, INSTR_SIZE + 1, "%s", buffer)` leaves in
`instruction`, given the content of `buffer`. -/
def sendData.instruction (cfg : Config) (buffer : List Nat) : List Nat :=
  snprintf_s [] (cfg.INSTR_SIZE + 1) buffer

/-- The string in `amendedBuffer`, given the content of `buffer`: the instruction filled
with spaces to `INSTR_SIZE`, then the data string, cut at `INSTR_SIZE + BUFFER_SIZE`
characters.  (The terminator of a full string lies one byte behind the array; it is taken
to stay in place.) -/
def sendData.amendedBuffer (cfg : Config) (buffer data : List Nat) : List Nat :=
  (padRight cfg.INSTR_SIZE (sendData.instruction cfg buffer) ++ cstr data).take
    (cfg.INSTR_SIZE + cfg.BUFFER_SIZE)

/-- The value of `int CRC`, given the content of `buffer`: `computeCRC` over the
zero-filled array holding the string, with the string length. -/
def sendData.CRC (cfg : Config) (computeCRC : List Nat → Int → Int)
    (buffer data : List Nat) : Int :=
  let amended := sendData.amendedBuffer cfg buffer data
  toInt32 (computeCRC
    (amended ++ List.replicate (cfg.INSTR_SIZE + cfg.BUFFER_SIZE - amended.length) 0)
    (amended.length : Int))

/-- The string in `crcedBuffer`, given the content of `buffer`: the checksum in
hexadecimal, then the body, cut at `PACKET_SIZE` characters. -/
def sendData.crcedBuffer (cfg : Config) (computeCRC : List Nat → Int → Int)
    (buffer data : List Nat) : List Nat :=
  (printf_x4 (sendData.CRC cfg computeCRC buffer data) ++
    sendData.amendedBuffer cfg buffer data).take cfg.PACKET_SIZE

/-- What a call of `sendData` did: the value returned and the bytes the socket took. -/
structure SendResult where
  ret : Int
  sent : List Nat
deriving DecidableEq, Repr

/-- The function `sendData`.  `instr` is the formatted instruction, `data` the bytes at the
data pointer, `stack` the previous content of the `PACKET_SIZE + 1` bytes of `crcedBuffer`
and `w` the outcome of the one `write`.  The call touches memory outside its arrays when
the formatted instruction does not fit `buffer`, and when the `write` is asked for bytes
that are not in `crcedBuffer`. -/
def sendData (cfg : Config) (computeCRC : List Nat → Int → Int) (stack : List Nat)
    (w : WriteOutcome) (data : List Nat) (contentLen : Int) (instr : List Nat) :
    Run SendResult :=
  match sendData.buffer cfg instr with
  | .blocked => .blocked
  | .outOfBounds => .outOfBounds
  | .done buffer =>
    let instruction := sendData.instruction cfg buffer
    if strlen instruction = 0 ∧ strlen data = 0 then
      .done ⟨-1, []⟩
    else
      let s := sendData.crcedBuffer cfg computeCRC buffer data
      let crcedBuffer := s ++ [0] ++ stack.drop (s.length + 1)
      let count : Int := (cfg.DATA_OFFSET : Int) + contentLen
      if count < 0 ∨ (crcedBuffer.length : Int) < count then
        .outOfBounds
      else
        .done ⟨w.ret count.toNat, w.accepted crcedBuffer 0 count.toNat⟩

/-! ## `recvData` -/

/-- What a call of `recvData` left: the two output strings and the value returned. -/
structure RecvResult where
  instruction : List Nat
  data : List Nat
  ret : Int
deriving DecidableEq, Repr

/-- The value of `int arrivedCRC` in `recvData`: the first `CRC_SIZE` characters of the
zeroed `PACKET_SIZE` buffer after the `read`, parsed by `strtol` in base 16. -/
def recvData.arrivedCRC (cfg : Config) (r : ReadOutcome) : Int :=
  let buffer := r.fill (List.replicate cfg.PACKET_SIZE 0)
  let CRC := snprintf_s (List.replicate (cfg.CRC_SIZE + 1) 0) (cfg.CRC_SIZE + 1) buffer
  toInt32 (strtol16 CRC)

/-- The value of `int calculatedCRC` in `recvData`:
`computeCRC(buffer + CRC_SIZE, size - DATA_OFFSET)`. -/
def recvData.calculatedCRC (cfg : Config) (computeCRC : List Nat → Int → Int)
    (r : ReadOutcome) : Int :=
  let buffer := r.fill (List.replicate cfg.PACKET_SIZE 0)
  let size := r.size
  toInt32 (computeCRC (buffer.drop cfg.CRC_SIZE) (size - (cfg.DATA_OFFSET : Int)))

/-- The function `recvData`.  `instruction0` is the previous content of the instruction
output and `r` the outcome of the one `read` into the zeroed `PACKET_SIZE` buffer. -/
def recvData (cfg : Config) (computeCRC : List Nat → Int → Int) (instruction0 : List Nat)
    (r : ReadOutcome) : RecvResult :=
  let buffer := r.fill (List.replicate cfg.PACKET_SIZE 0)
  let size := r.size
  let arrivedCRC := recvData.arrivedCRC cfg r
  let calculatedCRC := recvData.calculatedCRC cfg computeCRC r
  let instruction :=
    if arrivedCRC = 0 then
      snprintf_s instruction0 (cfg.INSTR_SIZE + 1) cfg.STATUS_EMPTY
    else if arrivedCRC ≠ calculatedCRC then
      snprintf_s instruction0 (cfg.INSTR_SIZE + 1) cfg.STATUS_ERR
    else
      instruction0
  let instruction := snprintf_s instruction (cfg.INSTR_SIZE + 1) (buffer.drop cfg.CRC_SIZE)
  let data := snprintf_s [] (cfg.BUFFER_SIZE + 1) (buffer.drop cfg.DATA_OFFSET)
  { instruction := instruction
    data := data
    ret :=
      if strncmpEq instruction cfg.STATUS_ERR (strlen cfg.STATUS_ERR) ||
          strncmpEq instruction cfg.STATUS_EMPTY (strlen cfg.STATUS_EMPTY) then -1
      else size - (cfg.DATA_OFFSET : Int) }

/-! ## The frame layout in the words of the spec -/

/-- The body of a frame in the words of the spec: the instruction right-padded with spaces
to the instruction width, followed by the data. -/
def frameBody (cfg : Config) (instr data : List Nat) : List Nat :=
  padRight cfg.INSTR_SIZE instr ++ data

/-- The 4 lowercase hexadecimal characters of a 16-bit value, most significant first. -/
def hex4 (c : Nat) : List Nat :=
  [hexChar (c / 4096), hexChar (c / 256 % 16), hexChar (c / 16 % 16), hexChar (c % 16)]

/-! ## Bulk transfer: `pushFile` and `pullFile` -/

/-- The environment of a bulk transfer: the outcomes of the coming `read` calls on the
source, the outcomes of the coming `write` calls on the destination, and the bytes the
destination has accepted so far. -/
structure World where
  reads : List ReadOutcome
  writes : List WriteOutcome
  out : List Nat
deriving DecidableEq, Repr

/-- How the inner `do ... while` loop is left: by its condition, or by a `return`. -/
inductive Step where
  | next
  | ret (v : Int)
deriving DecidableEq, Repr

/-- Whether `errno` is `EINTR` after the call. -/
def WriteOutcome.isEINTR : WriteOutcome → Bool
  | .eintr => true
  | _ => false

/-- Conversion of a signed value to `ull`, read as `unsigned long long` (64 bits): `-1`
becomes `2^64 - 1`. -/
def toULL (v : Int) : Nat := (v % 18446744073709551616).toNat

/-- The `do ... while (bytesRead > 0)` loop of `pushFile`, one `write` per round.
`data_ptr` is the offset of the pointer in `data`; `bytesRead` and `nWritten` are `sll`,
read as `signed long long`. -/
def pushFile.inner (data : List Nat) :
    List WriteOutcome → Nat → Int → List Nat → Run (Step × List WriteOutcome × List Nat)
  | [], _, _, _ => .blocked
  | o :: ws, data_ptr, bytesRead, out =>
    if data.length < data_ptr + bytesRead.toNat then .outOfBounds
    else
      let nWritten := o.ret bytesRead.toNat
      let out := out ++ o.accepted data data_ptr bytesRead.toNat
      if 0 ≤ nWritten then
        let bytesRead := bytesRead - nWritten
        let data_ptr := data_ptr + nWritten.toNat
        if 0 < bytesRead then pushFile.inner data ws data_ptr bytesRead out
        else .done (.next, ws, out)
      else if !o.isEINTR then .done (.ret (-1), ws, out)
      else if 0 < bytesRead then pushFile.inner data ws data_ptr bytesRead out
      else .done (.next, ws, out)

/-- The `while (bytesRead = read(fd, data, sizeof data), bytesRead > 0)` loop of
`pushFile` and the final `return bytesRead`. -/
def pushFile.outer :
    List ReadOutcome → List Nat → List WriteOutcome → List Nat → Run (Int × World)
  | [], _, _, _ => .blocked
  | r :: rs, data, ws, out =>
    let bytesRead := r.size
    let data := r.fill data
    if 0 < bytesRead then
      match pushFile.inner data ws 0 bytesRead out with
      | .done (.next, ws, out) => pushFile.outer rs data ws out
      | .done (.ret v, ws, out) => .done (v, ⟨rs, ws, out⟩)
      | .blocked => .blocked
      | .outOfBounds => .outOfBounds
    else .done (toInt32 bytesRead, ⟨rs, ws, out⟩)

/-- The function `pushFile`: `data` is the previous content of the local array, the reads
of `w` are those of the file and the writes of `w` those of the socket. -/
def pushFile (data : List Nat) (w : World) : Run (Int × World) :=
  pushFile.outer w.reads data w.writes w.out

/-- The `do ... while (nRead > 0)` loop of `pullFile`, one `write` per round.  `nRead` and
`nWritten` are `ull`, read as `unsigned long long`: the value `write` returns is converted,
the test `nWritten >= 0` holds for every value, and the arithmetic wraps at `2^64`.  The
loop hands back the final `nRead`. -/
def pullFile.inner (data : List Nat) :
    List WriteOutcome → Nat → Nat → List Nat →
      Run (Step × Nat × List WriteOutcome × List Nat)
  | [], _, _, _ => .blocked
  | o :: ws, data_ptr, nRead, out =>
    if data.length < data_ptr + nRead then .outOfBounds
    else
      let nWritten := toULL (o.ret nRead)
      let out := out ++ o.accepted data data_ptr nRead
      if 0 ≤ nWritten then
        let nRead := (nRead + 18446744073709551616 - nWritten) % 18446744073709551616
        let data_ptr := (data_ptr + nWritten) % 18446744073709551616
        if 0 < nRead then pullFile.inner data ws data_ptr nRead out
        else .done (.next, nRead, ws, out)
      else if !o.isEINTR then .done (.ret (-1), nRead, ws, out)
      else if 0 < nRead then pullFile.inner data ws data_ptr nRead out
      else .done (.next, nRead, ws, out)

/-- The `while (nRead = read(localSocket, data, sizeof data), nRead > 0)` loop of
`pullFile` with its `break`, and the final `return nRead`. -/
def pullFile.outer (fileSize : Nat) :
    List ReadOutcome → List Nat → Nat → List WriteOutcome → List Nat → Run (Int × World)
  | [], _, _, _, _ => .blocked
  | r :: rs, data, amountRead, ws, out =>
    let nRead := toULL r.size
    let data := r.fill data
    if 0 < nRead then
      let amountRead := (amountRead + nRead) % 18446744073709551616
      let nRead :=
        if fileSize ≤ amountRead then
          (nRead + 18446744073709551616 -
            (amountRead + 18446744073709551616 - fileSize) % 18446744073709551616) %
              18446744073709551616
        else nRead
      match pullFile.inner data ws 0 nRead out with
      | .done (.next, nRead, ws, out) =>
        if fileSize ≤ amountRead then .done (toInt32 nRead, ⟨rs, ws, out⟩)
        else pullFile.outer fileSize rs data amountRead ws out
      | .done (.ret v, _, ws, out) => .done (v, ⟨rs, ws, out⟩)
      | .blocked => .blocked
      | .outOfBounds => .outOfBounds
    else .done (toInt32 nRead, ⟨rs, ws, out⟩)

/-- The function `pullFile`: `data` is the previous content of the local array, the reads
of `w` are those of the socket and the writes of `w` those of the file; `fileSize` is an
`ull` value. -/
def pullFile (data : List Nat) (w : World) (fileSize : Nat) : Run (Int × World) :=
  pullFile.outer fileSize w.reads data 0 w.writes w.out

/-- The payload of a read outcome. -/
def ReadOutcome.payload : ReadOutcome → List Nat
  | .bytes bs => bs
  | .error => []

/-- The byte stream a script of reads delivers. -/
def streamOf (rs : List ReadOutcome) : List Nat := (rs.map ReadOutcome.payload).flatten

/-- The number of outcomes in a script of writes that accept at least one byte. -/
def progress (ws : List WriteOutcome) : Nat :=
  ws.countP (fun o => match o with
    | .wrote k => decide (0 < k)
    | _ => false)

/-- The outcome is a (possibly short) successful write. -/
def WriteOutcome.isWrote : WriteOutcome → Bool
  | .wrote _ => true
  | _ => false

/-- The read delivered a chunk of at least one and at most `size` bytes. -/
def ReadOutcome.isChunk (size : Nat) : ReadOutcome → Bool
  | .bytes bs => decide (0 < bs.length) && decide (bs.length ≤ size)
  | .error => false

/-- The received instruction field: the `INSTR_SIZE` bytes at offset `CRC_SIZE` of the
zeroed `PACKET_SIZE` buffer of `recvData` after the `read`. -/
def recvData.instrField (cfg : Config) (r : ReadOutcome) : List Nat :=
  ((r.fill (List.replicate cfg.PACKET_SIZE 0)).drop cfg.CRC_SIZE).take cfg.INSTR_SIZE

/-! ## `isNumeric` -/

/-- The value of a `char` that holds the byte `b`, with `char` signed. -/
def charVal (b : Nat) : Int := if b < 128 then (b : Int) else (b : Int) - 256

/-- The digit loop of `atoi` and of the `u` conversion of `sscanf`: accumulate in base 10
while the next character is a digit. -/
def decDigits : List Nat → Nat → Nat
  | [], acc => acc
  | c :: cs, acc => if 48 ≤ c ∧ c ≤ 57 then decDigits cs (acc * 10 + (c - 48)) else acc

/-- The value of `atoi(s)`: white space, an optional sign, then the decimal digits.  There
is no value (`none`) when the number does not fit an `int`: the C standard leaves the
behaviour undefined then. -/
def atoi (s : List Nat) : Option Int :=
  let s := (cstr s).dropWhile isspace
  let neg := s.head? == some 45
  let s := if s.head? == some 45 || s.head? == some 43 then s.tail else s
  let v : Int := (decDigits s 0 : Nat)
  let v := if neg then -v else v
  if -2147483648 ≤ v ∧ v ≤ 2147483647 then some v else none

/-- The `for` loop of `isNumeric` over the characters in front of the terminator: the
final value of `conclusion`. -/
def isNumeric.loop : List Nat → Int → Int
  | [], conclusion => conclusion
  | ch :: rest, conclusion =>
    isNumeric.loop rest
      (if charVal ch = -49 ∨ charVal ch < 48 ∨ charVal ch > 57 then 0 else conclusion)

/-- The function `isNumeric`: the value returned, if the call of `atoi` has one. -/
def isNumeric (potential : List Nat) : Option Int :=
  let conclusion := isNumeric.loop (cstr potential) 1
  if conclusion = 1 then atoi potential else some (-1)

/-- The value of a text of decimal digits, most significant first. -/
def decimalValue (s : List Nat) : Nat := Nat.ofDigits 10 ((s.map (fun c => c - 48)).reverse)

/-- The character is a decimal digit. -/
def isDigitChar (c : Nat) : Bool := decide (48 ≤ c) && decide (c ≤ 57)

/-! ## `splitLine` -/

/-- The counting loop of `splitLine` over the characters in front of the terminator
(`str[i + 1]` behind the last one is the terminator): the final value of `c`. -/
def splitLine.count : List Nat → Nat → Nat
  | [], c => c
  | [_], c => c
  | a :: b :: t, c =>
    splitLine.count (b :: t) (if a = 32 ∧ b ≠ 0 ∧ b ≠ 32 then c + 1 else c)

/-- The tokens the successive calls `strtok(str, delims)`, `strtok(NULL, delims)`, ...
return before `NULL`: the maximal runs of characters that are not delimiters.  `cur` is the
token being read. -/
def strtokAll (delims : List Nat) : List Nat → List Nat → List (List Nat)
  | [], cur => if cur = [] then [] else [cur]
  | ch :: t, cur =>
    if ch ∈ delims then
      if cur = [] then strtokAll delims t [] else cur :: strtokAll delims t []
    else strtokAll delims t (cur ++ [ch])

/-- The `while (element != NULL)` loop of `splitLine`: each token is copied (`strncpy`
with `FILENAME_MAX`) and its pointer stored in `elements[pos]`; a slot is `none` while it
holds `NULL`.  The loop hands back `pos` and the array. -/
def splitLine.store (fileNameMax : Nat) :
    List (List Nat) → Nat → List (Option (List Nat)) →
      Run (Nat × List (Option (List Nat)))
  | [], pos, elements => .done (pos, elements)
  | element :: rest, pos, elements =>
    if elements.length ≤ pos then .outOfBounds
    else splitLine.store fileNameMax rest (pos + 1)
      (elements.set pos (some (element.take fileNameMax)))

/-- What `splitLine` hands back: the array of `c + 2` slots and `*count`. -/
structure SplitResult where
  elements : List (Option (List Nat))
  count : Nat
deriving DecidableEq, Repr

/-- The function `splitLine`, with the delimiter set `SPLIT_PLACES` of the missing
`utils.h` and `FILENAME_MAX` as parameters (the parameter `tokens` of the source is not
used by it).  Allocations are taken to succeed. -/
def splitLine (SPLIT_PLACES : List Nat) (fileNameMax : Nat) (str : List Nat) :
    Run SplitResult :=
  let str := cstr str
  let c := splitLine.count str 0
  let elements : List (Option (List Nat)) := List.replicate (c + 2) none
  match splitLine.store fileNameMax (strtokAll SPLIT_PLACES str []) 0 elements with
  | .done (pos, elements) =>
    if elements.length ≤ pos then .outOfBounds
    else .done ⟨elements.set pos none, pos⟩
  | .blocked => .blocked
  | .outOfBounds => .outOfBounds

/-- The string begins with a character that is not a space. -/
def startsWord : List Nat → Bool
  | [] => false
  | a :: _ => a != 32

/-- The number of positions of a string that hold a space directly followed by a
character that is not a space. -/
def spaceWordPairs (s : List Nat) : Nat :=
  (s.zip s.tail).countP (fun p => p.1 == 32 && p.2 != 32)

/-! ## `isValidIPV4` -/

/-- One `%3u` conversion of `sscanf`: white space is skipped, then an optional sign and
decimal digits are read, at most 3 characters in all.  The conversion fails (`none`)
without a digit; otherwise it gives the value stored in the `unsigned int` (a negative
number wraps at `2^32`) and the rest of the input. -/
def scanf_3u (s : List Nat) : Option (Nat × List Nat) :=
  let s := s.dropWhile isspace
  let signed := s.head? == some 45 || s.head? == some 43
  let neg := s.head? == some 45
  let body := if signed then s.tail else s
  let width := if signed then 2 else 3
  let digits := (body.take width).takeWhile isDigitChar
  if digits = [] then none
  else
    let v := decDigits digits 0
    some (if neg then (4294967296 - v) % 4294967296 else v, body.drop digits.length)

/-- The literal `.` of the format: the next character has to be a dot. -/
def scanf_dot : List Nat → Option (List Nat)
  | 46 :: t => some t
  | _ => none

/-- The `%s` conversion of `sscanf`: white space is skipped, then the characters up to the
next white space are stored; nothing is stored at the end of the input. -/
def scanf_s (s : List Nat) : List Nat :=
  (s.dropWhile isspace).takeWhile (fun c => !isspace c)

/-- What `sscanf` did: the value `c` it returns, the numbers stored in `d` and the string
in `tail`. -/
structure ScanResult where
  c : Int
  d : List Nat
  tail : List Nat
deriving DecidableEq, Repr

/-- The call `sscanf(s, "%3u.%3u.%3u.%3u%s", &d[0], &d[1], &d[2], &d[3], tail)` with
`tail[0] = 0` before it: the directives are run in order up to the first that fails, and
the number of values stored is returned (`EOF`, that is `-1`, when the input ends before
the first conversion). -/
def sscanfIPV4 (s : List Nat) : ScanResult :=
  match scanf_3u s with
  | none => ⟨if s.dropWhile isspace = [] then -1 else 0, [], []⟩
  | some (d0, s) =>
    match (scanf_dot s).bind scanf_3u with
    | none => ⟨1, [d0], []⟩
    | some (d1, s) =>
      match (scanf_dot s).bind scanf_3u with
      | none => ⟨2, [d0, d1], []⟩
      | some (d2, s) =>
        match (scanf_dot s).bind scanf_3u with
        | none => ⟨3, [d0, d1, d2], []⟩
        | some (d3, s) =>
          if scanf_s s = [] then ⟨4, [d0, d1, d2, d3], []⟩
          else ⟨5, [d0, d1, d2, d3], scanf_s s⟩

/-- The function `isValidIPV4`. -/
def isValidIPV4 (s : List Nat) : Int :=
  let len := strlen s
  if len < 7 ∨ len > 15 then 0
  else
    let r := sscanfIPV4 (cstr s)
    if r.c ≠ 4 ∨ r.tail ≠ [] then 0
    else if r.d.any (fun x => decide (x > 255)) then 0
    else 1

/-- One number of a dotted quad in the words of the claim: 1 to 3 decimal digits with a
value of at most 255. -/
def isOctetText (t : List Nat) : Bool :=
  decide (1 ≤ t.length) && decide (t.length ≤ 3) && t.all isDigitChar &&
    decide (decimalValue t ≤ 255)

/-- The parts of a string between its dots. -/
def splitDots : List Nat → List (List Nat)
  | [] => [[]]
  | c :: t =>
    if c = 46 then [] :: splitDots t
    else
      match splitDots t with
      | h :: r => (c :: h) :: r
      | [] => [[c]]

/-- Valid dotted-quad IPv4 text in the words of the claim: four numbers of 1 to 3 decimal
digits, each at most 255, separated by single dots, and no other character. -/
def isDottedQuad (s : List Nat) : Bool :=
  decide ((splitDots s).length = 4) && (splitDots s).all isOctetText

/-! # Theorems -/

/-! ## C strings -/

theorem cstr_append (s t : List Nat) (h : ∀ b ∈ s, b ≠ 0) : cstr (s ++ t) = s ++ cstr t := by
  induction s with
  | nil => rfl
  | cons a s ih =>
    have ha : a ≠ 0 := h a (List.mem_cons_self a s)
    have hs : ∀ b ∈ s, b ≠ 0 := fun b hb => h b (List.mem_cons_of_mem a hb)
    have ih2 := ih hs
    unfold cstr at ih2 ⊢
    simp [List.takeWhile_cons, ha, ih2]

theorem cstr_nil : cstr [] = [] := rfl

theorem cstr_zeros (n : Nat) : cstr (List.replicate n 0) = [] := by
  cases n with
  | zero => rfl
  | succ n => simp [cstr, List.replicate_succ]

theorem cstr_nul_cons (t : List Nat) : cstr (0 :: t) = [] := by
  simp [cstr]

theorem cstr_of_nulFree (s : List Nat) (h : ∀ b ∈ s, b ≠ 0) : cstr s = s := by
  have := cstr_append s [] h
  simpa [cstr_nil] using this

theorem ne_zero_of_not_mem {s : List Nat} (h : 0 ∉ s) : ∀ b ∈ s, b ≠ 0 :=
  fun _ hb h0 => h (h0 ▸ hb)

/-! ## Hexadecimal text -/

theorem toNat_mod_small (c : Nat) (hc : c < 65536) : ((c : Int) % 4294967296).toNat = c := by
  omega

theorem toInt32_small (c : Nat) (hc : c < 65536) : toInt32 (c : Int) = (c : Int) := by
  unfold toInt32; omega

theorem hexDigits_small (c : Nat) (hc : c < 65536) :
    List.replicate (4 - (hexDigits 8 c).length) 48 ++ (hexDigits 8 c).map hexChar =
      [hexChar (c / 4096), hexChar (c / 256 % 16), hexChar (c / 16 % 16), hexChar (c % 16)] := by
  have h1 : c / 16 / 16 = c / 256 := by omega
  have h2 : c / 256 / 16 = c / 4096 := by omega
  by_cases a1 : c < 16
  · have e1 : c / 4096 = 0 := by omega
    have e2 : c / 256 = 0 := by omega
    have e3 : c / 16 = 0 := by omega
    have e4 : c % 16 = c := by omega
    simp [hexDigits, a1, e1, e2, e3, e4, hexChar, List.replicate]
  · by_cases a2 : c / 16 < 16
    · have e1 : c / 4096 = 0 := by omega
      have e2 : c / 256 = 0 := by omega
      have e3 : c / 16 % 16 = c / 16 := by omega
      simp [hexDigits, a1, a2, e1, e2, e3, hexChar, List.replicate]
    · by_cases a3 : c / 256 < 16
      · have e1 : c / 4096 = 0 := by omega
        have e2 : c / 256 % 16 = c / 256 := by omega
        simp [hexDigits, a1, a2, a3, h1, e1, e2, hexChar, List.replicate]
      · have a4 : c / 4096 < 16 := by omega
        simp [hexDigits, a1, a2, a3, a4, h1, h2, List.replicate]

theorem printf_x4_small (c : Nat) (hc : c < 65536) :
    printf_x4 (c : Int) =
      [hexChar (c / 4096), hexChar (c / 256 % 16), hexChar (c / 16 % 16), hexChar (c % 16)] := by
  unfold printf_x4
  simp only [toNat_mod_small c hc]
  exact hexDigits_small c hc

/-- A checksum value above 16 bits is printed with more than 4 digits. -/
theorem printf_x4_wide : printf_x4 70000 = [49, 49, 49, 55, 48] := by decide

theorem padRight_length (w : Nat) (s : List Nat) (h : s.length ≤ w) :
    (padRight w s).length = w := by
  simp [padRight]; omega

theorem sendData_instruction_eq (cfg : Config) (instr : List Nat) (hi : 0 ∉ instr) :
    sendData.instruction cfg instr = instr.take cfg.INSTR_SIZE := by
  simp [sendData.instruction, snprintf_s, cstr_of_nulFree instr (ne_zero_of_not_mem hi)]

theorem amendedBuffer_eq (cfg : Config) (instr data : List Nat) (hi : 0 ∉ instr)
    (hd : 0 ∉ data) :
    sendData.amendedBuffer cfg instr data =
      frameBody cfg (instr.take cfg.INSTR_SIZE) (data.take cfg.BUFFER_SIZE) := by
  have hl : (padRight cfg.INSTR_SIZE (instr.take cfg.INSTR_SIZE)).length = cfg.INSTR_SIZE :=
    padRight_length _ _ (by simp)
  unfold sendData.amendedBuffer frameBody
  rw [sendData_instruction_eq cfg instr hi, cstr_of_nulFree data (ne_zero_of_not_mem hd),
    List.take_append_eq_append_take, hl, List.take_of_length_le (by omega)]
  simp

theorem frameBody_length (cfg : Config) (instr data : List Nat)
    (hil : instr.length ≤ cfg.INSTR_SIZE) :
    (frameBody cfg instr data).length = cfg.INSTR_SIZE + data.length := by
  simp [frameBody, padRight_length _ _ hil]

theorem hex4_length (c : Nat) : (hex4 c).length = 4 := rfl

theorem crcedBuffer_eq (cfg : Config) (computeCRC : List Nat → Int → Int)
    (instr data : List Nat) (c : Nat) (hw : cfg.CRC_SIZE = 4) (hi : 0 ∉ instr) (hd : 0 ∉ data)
    (hc : c < 65536)
    (hcrc : computeCRC
      (frameBody cfg (instr.take cfg.INSTR_SIZE) (data.take cfg.BUFFER_SIZE) ++
        List.replicate (cfg.INSTR_SIZE + cfg.BUFFER_SIZE -
          (frameBody cfg (instr.take cfg.INSTR_SIZE) (data.take cfg.BUFFER_SIZE)).length) 0)
      ((frameBody cfg (instr.take cfg.INSTR_SIZE) (data.take cfg.BUFFER_SIZE)).length : Int)
        = (c : Int)) :
    sendData.crcedBuffer cfg computeCRC instr data =
      hex4 c ++ frameBody cfg (instr.take cfg.INSTR_SIZE) (data.take cfg.BUFFER_SIZE) := by
  have hbl := frameBody_length cfg (instr.take cfg.INSTR_SIZE) (data.take cfg.BUFFER_SIZE)
    (by simp)
  have hdl : (data.take cfg.BUFFER_SIZE).length ≤ cfg.BUFFER_SIZE := by simp
  unfold sendData.crcedBuffer sendData.CRC
  simp only [amendedBuffer_eq cfg instr data hi hd, hcrc, toInt32_small c hc,
    printf_x4_small c hc]
  apply List.take_of_length_le
  simp only [List.length_append, hbl, Config.PACKET_SIZE, Config.DATA_OFFSET, hw]
  have : ([hexChar (c / 4096), hexChar (c / 256 % 16), hexChar (c / 16 % 16),
    hexChar (c % 16)] : List Nat).length = 4 := rfl
  omega
theorem crcedBuffer_length_le (cfg : Config) (computeCRC : List Nat → Int → Int)
    (instr data : List Nat) :
    (sendData.crcedBuffer cfg computeCRC instr data).length ≤ cfg.PACKET_SIZE := by
  unfold sendData.crcedBuffer
  simp [List.length_take]

/-- An instruction within its width fits the array `buffer`. -/
theorem sendData_buffer_fits (cfg : Config) (instr : List Nat) (hi : 0 ∉ instr)
    (hil : instr.length ≤ cfg.INSTR_SIZE) : sendData.buffer cfg instr = .done instr := by
  unfold sendData.buffer strlen
  rw [cstr_of_nulFree instr (ne_zero_of_not_mem hi), if_neg (by omega)]

/-- An instruction of more than `INSTR_SIZE` characters makes `vsprintf` write past the end
of `buffer`: the call has no defined result. -/
theorem sendData_instruction_overrun (cfg : Config) (computeCRC : List Nat → Int → Int)
    (stack : List Nat) (w : WriteOutcome) (data : List Nat) (contentLen : Int)
    (instr : List Nat) (hlong : cfg.INSTR_SIZE < strlen instr) :
    sendData cfg computeCRC stack w data contentLen instr = .outOfBounds := by
  unfold sendData sendData.buffer
  simp only [hlong, if_true]

/-- With a request inside `crcedBuffer`, `sendData` returns what the one `write` returns and
the socket takes what that `write` accepts. -/
theorem sendData_done (cfg : Config) (computeCRC : List Nat → Int → Int) (stack : List Nat)
    (w : WriteOutcome) (data : List Nat) (contentLen : Nat) (instr : List Nat)
    (hi : 0 ∉ instr) (hil : instr.length ≤ cfg.INSTR_SIZE)
    (hne : ¬ (strlen (sendData.instruction cfg instr) = 0 ∧ strlen data = 0))
    (hstack : stack.length = cfg.PACKET_SIZE + 1) (hlen : contentLen ≤ cfg.BUFFER_SIZE + 1) :
    sendData cfg computeCRC stack w data (contentLen : Int) instr =
      .done ⟨w.ret (cfg.DATA_OFFSET + contentLen),
        w.accepted (sendData.crcedBuffer cfg computeCRC instr data ++ [0] ++
          stack.drop ((sendData.crcedBuffer cfg computeCRC instr data).length + 1)) 0
          (cfg.DATA_OFFSET + contentLen)⟩ := by
  have hs := crcedBuffer_length_le cfg computeCRC instr data
  have hcount : ((cfg.DATA_OFFSET : Int) + (contentLen : Int)).toNat =
      cfg.DATA_OFFSET + contentLen := by omega
  have hbound : ¬ ((cfg.DATA_OFFSET : Int) + (contentLen : Int) < 0 ∨
      ((sendData.crcedBuffer cfg computeCRC instr data ++ [0] ++
        stack.drop ((sendData.crcedBuffer cfg computeCRC instr data).length + 1)).length : Int)
        < (cfg.DATA_OFFSET : Int) + (contentLen : Int)) := by
    simp only [List.length_append, List.length_drop, hstack, Config.PACKET_SIZE,
      List.length_singleton] at hs ⊢
    omega
  unfold sendData
  simp only [sendData_buffer_fits cfg instr hi hil, hne, if_false, hbound, hcount]


theorem strlen_of_nulFree (s : List Nat) (h : 0 ∉ s) : strlen s = s.length := by
  unfold strlen
  rw [cstr_of_nulFree s (ne_zero_of_not_mem h)]

theorem accepted_wrote_all (buf : List Nat) (n k : Nat) (hk : n ≤ k) :
    (WriteOutcome.wrote k).accepted buf 0 n = buf.take n := by
  simp only [WriteOutcome.accepted, List.drop_zero, List.take_take]
  congr 1
  omega

theorem ret_wrote_all (n k : Nat) (hk : n ≤ k) : (WriteOutcome.wrote k).ret n = (n : Int) := by
  simp only [WriteOutcome.ret]
  congr 1
  omega

/-- C8, the claim as stated fails: with the widths 4 / 8 / 16, `PUT` and `file.txt` sent
with `contentLen = 8` put 20 bytes on the socket, not 28. -/
theorem sendData_frame_size_counterexample :
    sendData specConfig sampleCRC (List.replicate 29 0) (.wrote 28)
        [102, 105, 108, 101, 46, 116, 120, 116] 8 [80, 85, 84] =
      .done ⟨20, [52, 49, 56, 102, 80, 85, 84, 32, 32, 32, 32, 32,
        102, 105, 108, 101, 46, 116, 120, 116]⟩ ∧
    specConfig.CRC_SIZE + specConfig.INSTR_SIZE + specConfig.BUFFER_SIZE = 28 := by
  decide

/-- C8, amended.  For an instruction within its width and a data string, not both empty,
and a declared length `contentLen ≤ BUFFER_SIZE`, a `write` that takes everything offered puts
exactly `CRC_SIZE + INSTR_SIZE + contentLen` bytes on the socket, and `sendData` returns
that number: the size follows the declared length of the payload. -/
theorem sendData_frame_size (cfg : Config) (computeCRC : List Nat → Int → Int)
    (stack : List Nat) (k : Nat) (data : List Nat) (contentLen : Nat) (instr : List Nat)
    (hi : 0 ∉ instr) (hil : instr.length ≤ cfg.INSTR_SIZE)
    (hd : 0 ∉ data) (hne : ¬ (instr = [] ∧ data = []))
    (hstack : stack.length = cfg.PACKET_SIZE + 1) (hlen : contentLen ≤ cfg.BUFFER_SIZE)
    (hk : cfg.DATA_OFFSET + contentLen ≤ k) :
    ∃ sent, sendData cfg computeCRC stack (.wrote k) data (contentLen : Int) instr =
        .done ⟨((cfg.CRC_SIZE + cfg.INSTR_SIZE + contentLen : Nat) : Int), sent⟩ ∧
      sent.length = cfg.CRC_SIZE + cfg.INSTR_SIZE + contentLen := by
  have hne2 : ¬ (strlen (sendData.instruction cfg instr) = 0 ∧ strlen data = 0) := by
    rw [sendData_instruction_eq cfg instr hi, strlen_of_nulFree data hd,
      strlen_of_nulFree _ (fun h => hi (List.mem_of_mem_take h)),
      List.take_of_length_le hil]
    simpa [List.length_eq_zero] using hne
  have hs := crcedBuffer_length_le cfg computeCRC instr data
  rw [sendData_done cfg computeCRC stack (.wrote k) data contentLen instr hi hil hne2 hstack
    (by omega), ret_wrote_all _ _ hk, accepted_wrote_all _ _ _ hk]
  refine Exists.intro _ (And.intro rfl ?_)
  simp only [List.length_take, List.length_append, List.length_drop, hstack,
    List.length_singleton, Config.PACKET_SIZE, Config.DATA_OFFSET] at hs ⊢
  omega

/-- The scenario of the spec: `PUT`, `file.txt`, `contentLen = 8`, widths 4 / 8 / 16. -/
theorem sendData_frame_size_witness :
    ∃ sent, sendData specConfig sampleCRC (List.replicate 29 0) (.wrote 28)
        [102, 105, 108, 101, 46, 116, 120, 116] ((8 : Nat) : Int) [80, 85, 84] =
        .done ⟨((specConfig.CRC_SIZE + specConfig.INSTR_SIZE + 8 : Nat) : Int), sent⟩ ∧
      sent.length = specConfig.CRC_SIZE + specConfig.INSTR_SIZE + 8 :=
  sendData_frame_size specConfig sampleCRC (List.replicate 29 0) 28
    [102, 105, 108, 101, 46, 116, 120, 116] 8 [80, 85, 84] (by decide) (by decide) (by decide)
    (by decide) (by decide) (by decide) (by decide)


/-- C9, the claim as stated fails: with the widths 4 / 8 / 16 and the instruction `PUT`,
a 17-byte data string is not rejected.  With the declared length 16 the 28 bytes of a frame
that holds the first 16 data bytes go to the socket and 28 is returned; with the declared
length 17 the same 28 bytes and the terminator go to the socket and 29 is returned.  A
9-character instruction does not give a failure value either: `vsprintf` writes past the
end of `buffer`. -/
theorem sendData_oversize_counterexample :
    sendData specConfig sampleCRC (List.replicate 29 0) (.wrote 100) (List.replicate 17 97) 16
        [80, 85, 84] =
      .done ⟨28, [101, 102, 49, 49, 80, 85, 84, 32, 32, 32, 32, 32, 97, 97, 97, 97, 97, 97, 97,
        97, 97, 97, 97, 97, 97, 97, 97, 97]⟩ ∧
    sendData specConfig sampleCRC (List.replicate 29 0) (.wrote 100) (List.replicate 17 97) 17
        [80, 85, 84] =
      .done ⟨29, [101, 102, 49, 49, 80, 85, 84, 32, 32, 32, 32, 32, 97, 97, 97, 97, 97, 97, 97,
        97, 97, 97, 97, 97, 97, 97, 97, 97, 0]⟩ ∧
    sendData specConfig sampleCRC (List.replicate 29 0) (.wrote 100) [120] 1
        [80, 85, 84, 80, 85, 84, 80, 85, 84] = .outOfBounds := by
  decide

/-- C9, amended.  Oversize data is cut, not rejected.  For every data string of more than
`BUFFER_SIZE` characters, an instruction within `INSTR_SIZE`, a checksum value that fits
the 4-character field and a declared length `contentLen ≤ BUFFER_SIZE + 1`, `sendData`
does not fail before the `write`: the frame it builds holds the first `BUFFER_SIZE`
characters of the data only, the `write` is offered the first `DATA_OFFSET + contentLen`
bytes of that frame followed by its terminator, and `sendData` returns what the `write`
returns, whatever the outcome of the `write`. -/
theorem sendData_oversize_data_cut (cfg : Config) (computeCRC : List Nat → Int → Int)
    (stack : List Nat) (w : WriteOutcome) (data : List Nat) (contentLen : Nat)
    (instr : List Nat) (c : Nat) (hw : cfg.CRC_SIZE = 4)
    (hi : 0 ∉ instr) (hil : instr.length ≤ cfg.INSTR_SIZE) (hd : 0 ∉ data)
    (hover : cfg.BUFFER_SIZE < data.length) (hc : c < 65536)
    (hcrc : computeCRC
      (frameBody cfg instr (data.take cfg.BUFFER_SIZE) ++
        List.replicate (cfg.INSTR_SIZE + cfg.BUFFER_SIZE -
          (frameBody cfg instr (data.take cfg.BUFFER_SIZE)).length) 0)
      ((frameBody cfg instr (data.take cfg.BUFFER_SIZE)).length : Int) = (c : Int))
    (hstack : stack.length = cfg.PACKET_SIZE + 1)
    (hlen : contentLen ≤ cfg.BUFFER_SIZE + 1) :
    sendData cfg computeCRC stack w data (contentLen : Int) instr =
      .done ⟨w.ret (cfg.DATA_OFFSET + contentLen),
        w.accepted (hex4 c ++ frameBody cfg instr (data.take cfg.BUFFER_SIZE) ++ [0]) 0
          (cfg.DATA_OFFSET + contentLen)⟩ := by
  have e1 : instr.take cfg.INSTR_SIZE = instr := List.take_of_length_le hil
  have hdne : data ≠ [] := by
    intro h
    rw [h] at hover
    simp at hover
  have hne2 : ¬ (strlen (sendData.instruction cfg instr) = 0 ∧ strlen data = 0) := by
    rw [strlen_of_nulFree data hd]
    intro h
    exact hdne (List.eq_nil_of_length_eq_zero h.2)
  have hframe := crcedBuffer_eq cfg computeCRC instr data c hw hi hd hc
    (by rw [e1]; exact hcrc)
  rw [e1] at hframe
  have hfl : (hex4 c ++ frameBody cfg instr (data.take cfg.BUFFER_SIZE)).length =
      cfg.PACKET_SIZE := by
    simp only [List.length_append, hex4_length, frameBody_length cfg instr _ hil,
      List.length_take, Config.PACKET_SIZE, Config.DATA_OFFSET, hw]
    omega
  rw [sendData_done cfg computeCRC stack w data contentLen instr hi hil hne2 hstack hlen,
    hframe, hfl, List.drop_of_length_le (by omega), List.append_nil]

/-- A 17-byte data string with the widths 4 / 8 / 16 and the declared length 17. -/
theorem sendData_oversize_data_cut_witness :
    sendData specConfig sampleCRC (List.replicate 29 0) (.wrote 100) (List.replicate 17 97)
        ((17 : Nat) : Int) [80, 85, 84] =
      .done ⟨(WriteOutcome.wrote 100).ret (specConfig.DATA_OFFSET + 17),
        (WriteOutcome.wrote 100).accepted
          (hex4 61201 ++ frameBody specConfig [80, 85, 84]
            ((List.replicate 17 97).take specConfig.BUFFER_SIZE) ++ [0]) 0
          (specConfig.DATA_OFFSET + 17)⟩ :=
  sendData_oversize_data_cut specConfig sampleCRC (List.replicate 29 0) (.wrote 100)
    (List.replicate 17 97) 17 [80, 85, 84] 61201 rfl (by decide) (by decide) (by decide)
    (by decide) (by decide) (by decide) (by decide) (by decide)

/-! ## `recvData` -/

/-- The result of `recvData` in closed form: the status text written first is replaced by
the received instruction field, whatever the checksum comparison gave. -/
theorem recvData_eq (cfg : Config) (computeCRC : List Nat → Int → Int)
    (instruction0 : List Nat) (r : ReadOutcome) :
    recvData cfg computeCRC instruction0 r =
      { instruction := ((cstr ((r.fill (List.replicate cfg.PACKET_SIZE 0)).drop cfg.CRC_SIZE)).take
          cfg.INSTR_SIZE)
        data := ((cstr ((r.fill (List.replicate cfg.PACKET_SIZE 0)).drop cfg.DATA_OFFSET)).take
          cfg.BUFFER_SIZE)
        ret :=
          if strncmpEq ((cstr ((r.fill (List.replicate cfg.PACKET_SIZE 0)).drop
                cfg.CRC_SIZE)).take cfg.INSTR_SIZE) cfg.STATUS_ERR (strlen cfg.STATUS_ERR) ||
              strncmpEq ((cstr ((r.fill (List.replicate cfg.PACKET_SIZE 0)).drop
                cfg.CRC_SIZE)).take cfg.INSTR_SIZE) cfg.STATUS_EMPTY
                (strlen cfg.STATUS_EMPTY) then -1
          else r.size - (cfg.DATA_OFFSET : Int) } := rfl

/-- A frame made of a checksum field, a full-width instruction field and a data string is
received as that instruction and that data; the checksum field has no influence. -/
theorem recvData_of_frame (cfg : Config) (computeCRC : List Nat → Int → Int)
    (instruction0 crcField instrField data : List Nat)
    (h1 : crcField.length = cfg.CRC_SIZE) (h2 : instrField.length = cfg.INSTR_SIZE)
    (h3 : 0 ∉ instrField) (h4 : 0 ∉ data) (h5 : data.length ≤ cfg.BUFFER_SIZE) :
    recvData cfg computeCRC instruction0 (.bytes (crcField ++ (instrField ++ data))) =
      { instruction := instrField
        data := data
        ret :=
          if strncmpEq instrField cfg.STATUS_ERR (strlen cfg.STATUS_ERR) ||
              strncmpEq instrField cfg.STATUS_EMPTY (strlen cfg.STATUS_EMPTY) then -1
          else (data.length : Int) } := by
  have hfill : (ReadOutcome.bytes (crcField ++ (instrField ++ data))).fill
      (List.replicate cfg.PACKET_SIZE 0) =
      crcField ++ (instrField ++ (data ++ List.replicate (cfg.BUFFER_SIZE - data.length) 0)) := by
    simp only [ReadOutcome.fill, List.drop_replicate, List.length_append, h1, h2,
      Config.PACKET_SIZE, Config.DATA_OFFSET, List.append_assoc]
    congr 4
    omega
  have hd1 : (crcField ++ (instrField ++ (data ++
      List.replicate (cfg.BUFFER_SIZE - data.length) 0))).drop cfg.CRC_SIZE =
      instrField ++ (data ++ List.replicate (cfg.BUFFER_SIZE - data.length) 0) :=
    List.drop_left' h1
  have hd2 : (crcField ++ (instrField ++ (data ++
      List.replicate (cfg.BUFFER_SIZE - data.length) 0))).drop cfg.DATA_OFFSET =
      data ++ List.replicate (cfg.BUFFER_SIZE - data.length) 0 := by
    rw [← List.append_assoc]
    exact List.drop_left' (by simp [h1, h2, Config.DATA_OFFSET])
  have hc1 : cstr (instrField ++ (data ++ List.replicate (cfg.BUFFER_SIZE - data.length) 0)) =
      instrField ++ data := by
    rw [cstr_append _ _ (ne_zero_of_not_mem h3), cstr_append _ _ (ne_zero_of_not_mem h4),
      cstr_zeros, List.append_nil]
  have hc2 : cstr (data ++ List.replicate (cfg.BUFFER_SIZE - data.length) 0) = data := by
    rw [cstr_append _ _ (ne_zero_of_not_mem h4), cstr_zeros, List.append_nil]
  have hsize : (ReadOutcome.bytes (crcField ++ (instrField ++ data))).size -
      (cfg.DATA_OFFSET : Int) = (data.length : Int) := by
    simp only [ReadOutcome.size, List.length_append, h1, h2, Config.DATA_OFFSET]
    push_cast
    omega
  rw [recvData_eq, hfill, hd1, hd2, hc1, hc2, hsize, List.take_left' h2,
    List.take_of_length_le h5]


theorem strncmpEq_strlen (a b : List Nat) :
    strncmpEq a b (strlen b) = true ↔ cstr b <+: cstr a := by
  unfold strncmpEq strlen
  rw [decide_eq_true_iff, List.take_length, List.prefix_iff_eq_take]
  exact eq_comm

/-- C2, the code at a failing input: with the widths 4 / 8 / 16, the frame `1000PUT     x`
carries the non-zero checksum `0x1000` while the checksum recomputed by `recvData` (here
with the sample digest) is `81`; for every checksum function and previous content of the
output, `recvData` leaves the received instruction and returns the data length `1`, not
`STATUS_ERR` and `-1`. -/
theorem recvData_mismatch_not_reported :
    toInt32 (strtol16 (snprintf_s [] (specConfig.CRC_SIZE + 1)
      ((ReadOutcome.bytes [49, 48, 48, 48, 80, 85, 84, 32, 32, 32, 32, 32, 120]).fill
        (List.replicate specConfig.PACKET_SIZE 0)))) = 4096 ∧
    toInt32 (sampleCRC
      (((ReadOutcome.bytes [49, 48, 48, 48, 80, 85, 84, 32, 32, 32, 32, 32, 120]).fill
        (List.replicate specConfig.PACKET_SIZE 0)).drop specConfig.CRC_SIZE)
      ((ReadOutcome.bytes [49, 48, 48, 48, 80, 85, 84, 32, 32, 32, 32, 32, 120]).size -
        (specConfig.DATA_OFFSET : Int))) = 81 ∧
    ∀ (computeCRC : List Nat → Int → Int) (instruction0 : List Nat),
      recvData specConfig computeCRC instruction0
          (.bytes [49, 48, 48, 48, 80, 85, 84, 32, 32, 32, 32, 32, 120]) =
        ⟨[80, 85, 84, 32, 32, 32, 32, 32], [120], 1⟩ :=
  ⟨by decide, by decide, fun computeCRC instruction0 =>
    recvData_of_frame specConfig computeCRC instruction0 [49, 48, 48, 48]
      [80, 85, 84, 32, 32, 32, 32, 32] [120] rfl rfl (by decide) (by decide) (by decide)⟩

/-- C3, the code at a failing input: with the widths 4 / 8 / 16, the frame `0000PUT     x`
has a checksum field that parses to zero; for every checksum function and previous content
of the output, `recvData` leaves the received instruction and returns the data length `1`,
not `STATUS_EMPTY` and `-1`. -/
theorem recvData_zero_checksum_not_reported :
    toInt32 (strtol16 (snprintf_s [] (specConfig.CRC_SIZE + 1)
      ((ReadOutcome.bytes [48, 48, 48, 48, 80, 85, 84, 32, 32, 32, 32, 32, 120]).fill
        (List.replicate specConfig.PACKET_SIZE 0)))) = 0 ∧
    ∀ (computeCRC : List Nat → Int → Int) (instruction0 : List Nat),
      recvData specConfig computeCRC instruction0
          (.bytes [48, 48, 48, 48, 80, 85, 84, 32, 32, 32, 32, 32, 120]) =
        ⟨[80, 85, 84, 32, 32, 32, 32, 32], [120], 1⟩ :=
  ⟨by decide, fun computeCRC instruction0 =>
    recvData_of_frame specConfig computeCRC instruction0 [48, 48, 48, 48]
      [80, 85, 84, 32, 32, 32, 32, 32] [120] rfl rfl (by decide) (by decide) (by decide)⟩

/-- C10, the code at failing inputs, with the widths 4 / 8 / 16.  On a read of 0 bytes the
checksum field of the cleared buffer parses to 0, so `recvData` stores `STATUS_EMPTY`; on a
read of the 2 bytes `12` it parses to `0x12`, so `recvData` stores `STATUS_ERR` unless the
recomputed checksum is `0x12` too.  The unconditional copy of the received instruction
field, which is empty, then replaces what the output holds, and for every checksum function
and previous content of the output `recvData` leaves an empty instruction and returns
`size - DATA_OFFSET`, that is `-12` and `-10`, not `-1`. -/
theorem recvData_short_read_not_minus_one :
    recvData.arrivedCRC specConfig (.bytes []) = 0 ∧
      recvData.arrivedCRC specConfig (.bytes [49, 50]) = 18 ∧
      ∀ (computeCRC : List Nat → Int → Int) (instruction0 : List Nat),
        recvData specConfig computeCRC instruction0 (.bytes []) = ⟨[], [], -12⟩ ∧
        recvData specConfig computeCRC instruction0 (.bytes [49, 50]) = ⟨[], [], -10⟩ :=
  ⟨by decide, by decide, fun computeCRC instruction0 =>
    ⟨by rw [recvData_eq]; decide, by rw [recvData_eq]; decide⟩⟩

/-- What the code, with the overwrite of the stored status text in place, does on a read
that delivers fewer bytes than `CRC_SIZE` (status texts non-empty): it returns
`size - DATA_OFFSET`, a value below `-INSTR_SIZE`, and the instruction it leaves is empty. -/
theorem recvData_truncated (cfg : Config) (computeCRC : List Nat → Int → Int)
    (instruction0 bs : List Nat) (herr : 0 < strlen cfg.STATUS_ERR)
    (hempty : 0 < strlen cfg.STATUS_EMPTY) (hlt : bs.length < cfg.CRC_SIZE) :
    (recvData cfg computeCRC instruction0 (.bytes bs)).ret =
        (bs.length : Int) - (cfg.DATA_OFFSET : Int) ∧
      (recvData cfg computeCRC instruction0 (.bytes bs)).ret < -(cfg.INSTR_SIZE : Int) ∧
      (recvData cfg computeCRC instruction0 (.bytes bs)).ret < 0 ∧
      (recvData cfg computeCRC instruction0 (.bytes bs)).instruction = [] ∧
      strncmpEq (recvData cfg computeCRC instruction0 (.bytes bs)).instruction
        cfg.STATUS_EMPTY (strlen cfg.STATUS_EMPTY) = false := by
  have hdrop : ((ReadOutcome.bytes bs).fill (List.replicate cfg.PACKET_SIZE 0)).drop
      cfg.CRC_SIZE = List.replicate (cfg.PACKET_SIZE - cfg.CRC_SIZE) 0 := by
    simp only [ReadOutcome.fill, List.drop_replicate, List.drop_append_eq_append_drop,
      List.drop_of_length_le (Nat.le_of_lt hlt), List.nil_append]
    congr 1
    omega
  have hnone : ∀ b : List Nat, 0 < strlen b → strncmpEq [] b (strlen b) = false := by
    intro b hb
    cases hbt : strncmpEq [] b (strlen b) with
    | false => rfl
    | true =>
      rw [strncmpEq_strlen, cstr_nil, List.prefix_nil] at hbt
      rw [strlen, hbt] at hb
      exact absurd hb (by decide)
  have hinstr : (recvData cfg computeCRC instruction0 (.bytes bs)).instruction = [] := by
    rw [recvData_eq, hdrop, cstr_zeros]
    exact List.take_nil
  have hret : (recvData cfg computeCRC instruction0 (.bytes bs)).ret =
      (bs.length : Int) - (cfg.DATA_OFFSET : Int) := by
    rw [recvData_eq, hdrop, cstr_zeros]
    simp only [List.take_nil, hnone _ herr, hnone _ hempty, ReadOutcome.size]
    rfl
  refine ⟨hret, ?_, ?_, hinstr, ?_⟩
  · rw [hret]
    simp only [Config.DATA_OFFSET]
    push_cast
    omega
  · rw [hret]
    simp only [Config.DATA_OFFSET]
    push_cast
    omega
  · rw [hinstr]
    exact hnone _ hempty

/-- A read of the 2 bytes `12` with the widths 4 / 8 / 16. -/
theorem recvData_truncated_witness :
    (recvData specConfig sampleCRC [] (.bytes [49, 50])).ret =
        (([49, 50] : List Nat).length : Int) - (specConfig.DATA_OFFSET : Int) ∧
      (recvData specConfig sampleCRC [] (.bytes [49, 50])).ret <
        -(specConfig.INSTR_SIZE : Int) ∧
      (recvData specConfig sampleCRC [] (.bytes [49, 50])).ret < 0 ∧
      (recvData specConfig sampleCRC [] (.bytes [49, 50])).instruction = [] ∧
      strncmpEq (recvData specConfig sampleCRC [] (.bytes [49, 50])).instruction
        specConfig.STATUS_EMPTY (strlen specConfig.STATUS_EMPTY) = false :=
  recvData_truncated specConfig sampleCRC [] [49, 50] (by decide) (by decide) (by decide)


/-! ## `pushFile` -/

theorem take_take_drop_append (data : List Nat) (p n k : Nat) (hk : k ≤ n) :
    ((data.drop p).take n).take k ++ (data.drop (p + k)).take (n - k) =
      (data.drop p).take n := by
  rw [List.take_take, Nat.min_eq_left hk, ← List.drop_drop]
  conv_rhs => rw [show n = k + (n - k) by omega, List.take_add]

/-- The inner loop of `pushFile`, left by its condition, has handed the socket exactly the
`n` bytes of the chunk that were still to send, in order. -/
theorem pushFile_inner_next (data : List Nat) :
    ∀ (ws : List WriteOutcome) (p n : Nat) (out : List Nat) (ws' : List WriteOutcome)
      (out' : List Nat), 0 < n →
      pushFile.inner data ws p (n : Int) out = .done (.next, ws', out') →
      out' = out ++ (data.drop p).take n := by
  intro ws
  induction ws with
  | nil => intro p n out ws' out' _ h; simp [pushFile.inner] at h
  | cons o ws ih =>
    intro p n out ws' out' hn h
    unfold pushFile.inner at h
    simp only [Int.toNat_ofNat] at h
    split at h
    · exact absurd h (by simp)
    · cases o with
      | wrote k =>
        simp only [WriteOutcome.ret, WriteOutcome.accepted] at h
        have h0 : (0 : Int) ≤ ((min k n : Nat) : Int) := Int.ofNat_nonneg _
        simp only [h0, if_true, Int.toNat_ofNat] at h
        by_cases hkn : k < n
        · have e1 : min k n = k := Nat.min_eq_left (Nat.le_of_lt hkn)
          have e2 : (n : Int) - ((min k n : Nat) : Int) = ((n - k : Nat) : Int) := by
            rw [e1]; omega
          have e3 : (0 : Int) < ((n - k : Nat) : Int) := by omega
          rw [e2, e1] at h
          simp only [e3, if_true] at h
          have := ih (p + k) (n - k) _ ws' out' (by omega) h
          rw [this, List.append_assoc, take_take_drop_append data p n k (Nat.le_of_lt hkn)]
        · have e1 : min k n = n := Nat.min_eq_right (Nat.le_of_not_lt hkn)
          have e3 : ¬ (0 : Int) < (n : Int) - ((min k n : Nat) : Int) := by rw [e1]; omega
          simp only [e3, if_false, Run.done.injEq, Prod.mk.injEq, true_and] at h
          rw [← h.2, List.take_of_length_le]
          simp only [List.length_take]
          omega
      | eintr =>
        have hn' : (0 : Int) < (n : Int) := by omega
        simp [WriteOutcome.ret, WriteOutcome.accepted, WriteOutcome.isEINTR, hn'] at h
        exact ih p n out ws' out' hn h
      | fail =>
        simp [WriteOutcome.ret, WriteOutcome.accepted, WriteOutcome.isEINTR] at h

/-- The inner loop of `pushFile` returns nothing but `-1`. -/
theorem pushFile_inner_ret (data : List Nat) :
    ∀ (ws : List WriteOutcome) (p : Nat) (n : Int) (out : List Nat) (v : Int)
      (ws' : List WriteOutcome) (out' : List Nat),
      pushFile.inner data ws p n out = .done (.ret v, ws', out') → v = -1 := by
  intro ws
  induction ws with
  | nil => intro p n out v ws' out' h; simp [pushFile.inner] at h
  | cons o ws ih =>
    intro p n out v ws' out' h
    unfold pushFile.inner at h
    split at h
    · exact absurd h (by simp)
    · simp only at h
      split at h
      · split at h
        · exact ih _ _ _ _ _ _ h
        · simp at h
      · split at h
        · simp only [Run.done.injEq, Prod.mk.injEq, Step.ret.injEq] at h
          exact h.1.symm
        · split at h
          · exact ih _ _ _ _ _ _ h
          · simp at h


theorem pushFile_outer_zero :
    ∀ (rs : List ReadOutcome) (data : List Nat) (ws : List WriteOutcome) (out : List Nat)
      (w' : World), pushFile.outer rs data ws out = .done (0, w') →
      ∃ chunks : List (List Nat),
        rs = chunks.map ReadOutcome.bytes ++ ReadOutcome.bytes [] :: w'.reads ∧
        (∀ c ∈ chunks, c ≠ []) ∧ w'.out = out ++ chunks.flatten := by
  intro rs
  induction rs with
  | nil => intro data ws out w' h; simp [pushFile.outer] at h
  | cons r rs ih =>
    intro data ws out w' h
    unfold pushFile.outer at h
    cases r with
    | error =>
      simp [ReadOutcome.size, toInt32] at h
    | bytes bs =>
      simp only [ReadOutcome.size, ReadOutcome.fill] at h
      by_cases hbs : (0 : Int) < (bs.length : Int)
      · simp only [hbs, if_true] at h
        have hpos : 0 < bs.length := by omega
        cases hres : pushFile.inner (bs ++ data.drop bs.length) ws 0 (bs.length : Int) out with
        | blocked => rw [hres] at h; simp at h
        | outOfBounds => rw [hres] at h; simp at h
        | done x =>
          obtain ⟨step, ws1, out1⟩ := x
          rw [hres] at h
          cases step with
          | ret v =>
            have hv := pushFile_inner_ret _ _ _ _ _ _ _ _ hres
            simp only [Run.done.injEq, Prod.mk.injEq] at h
            omega
          | next =>
            simp only at h
            have hout := pushFile_inner_next _ _ _ _ _ _ _ hpos hres
            rw [List.drop_zero, List.take_left' rfl] at hout
            obtain ⟨chunks, h1, h2, h3⟩ := ih _ _ _ _ h
            refine ⟨bs :: chunks, ?_, ?_, ?_⟩
            · rw [h1]; rfl
            · intro c hc
              rcases List.mem_cons.mp hc with rfl | hc
              · exact List.ne_nil_of_length_pos hpos
              · exact h2 c hc
            · rw [h3, hout, List.flatten_cons, List.append_assoc]
      · have hbs0 : bs = [] := by
          apply List.eq_nil_of_length_eq_zero
          omega
        subst hbs0
        simp only [List.length_nil, Int.ofNat_zero, lt_self_iff_false, if_false,
          Run.done.injEq, Prod.mk.injEq] at h
        refine ⟨[], ?_, ?_, ?_⟩
        · rw [← h.2]; rfl
        · intro c hc; cases hc
        · rw [← h.2]; simp

/-- C5.  Delivery guarantee of `pushFile`: for every previous content of the array, every
script of file reads and every script of socket writes (full, short, interrupted or
failed), if `pushFile` returns 0 then the file reads it made were non-empty chunks followed
by the end of file, and the bytes the socket accepted during the call are exactly those
chunks, in order, nothing lost and nothing twice. -/
theorem pushFile_delivery (data : List Nat) (w w' : World)
    (h : pushFile data w = .done (0, w')) :
    ∃ chunks : List (List Nat),
      w.reads = chunks.map ReadOutcome.bytes ++ ReadOutcome.bytes [] :: w'.reads ∧
      (∀ c ∈ chunks, c ≠ []) ∧ w'.out = w.out ++ chunks.flatten :=
  pushFile_outer_zero w.reads data w.writes w.out w' h

/-- A file of 5 bytes read in chunks of 3 and 2, sent through a short write, an interrupted
write, a write of nothing and full writes. -/
theorem pushFile_delivery_witness :
    ∃ chunks : List (List Nat),
      (World.mk [.bytes [1, 2, 3], .bytes [4, 5], .bytes []]
        [.wrote 2, .eintr, .wrote 0, .wrote 5, .wrote 1, .wrote 9] [7]).reads =
        chunks.map ReadOutcome.bytes ++
          ReadOutcome.bytes [] :: (World.mk [] [] [7, 1, 2, 3, 4, 5]).reads ∧
      (∀ c ∈ chunks, c ≠ []) ∧
      (World.mk [] [] [7, 1, 2, 3, 4, 5]).out =
        (World.mk [.bytes [1, 2, 3], .bytes [4, 5], .bytes []]
          [.wrote 2, .eintr, .wrote 0, .wrote 5, .wrote 1, .wrote 9] [7]).out ++
          chunks.flatten :=
  pushFile_delivery (List.replicate 4 0)
    ⟨[.bytes [1, 2, 3], .bytes [4, 5], .bytes []],
      [.wrote 2, .eintr, .wrote 0, .wrote 5, .wrote 1, .wrote 9], [7]⟩
    ⟨[], [], [7, 1, 2, 3, 4, 5]⟩ (by decide)


/-! ## `pullFile` -/

theorem toULL_ofNat (m : Nat) (h : m < 18446744073709551616) : toULL (m : Int) = m := by
  unfold toULL; omega

theorem progress_cons_wrote (k : Nat) (ws : List WriteOutcome) :
    progress (.wrote k :: ws) = progress ws + (if 0 < k then 1 else 0) := by
  simp [progress, List.countP_cons]

/-- The inner loop of `pullFile` on successful (possibly short) writes, enough of which
make progress: it is left by its condition with `nRead = 0`, having handed the file exactly
the `n` bytes at the pointer, in order. -/
theorem pullFile_inner_writes (data : List Nat) (hdata : data.length < 18446744073709551616) :
    ∀ (ws : List WriteOutcome) (p n : Nat) (out : List Nat),
      (∀ o ∈ ws, o.isWrote = true) → p + n ≤ data.length → max n 1 ≤ progress ws →
      ∃ ws', pullFile.inner data ws p n out =
          .done (.next, 0, ws', out ++ (data.drop p).take n) ∧
        (∀ o ∈ ws', o.isWrote = true) ∧ progress ws ≤ progress ws' + max n 1 := by
  intro ws
  induction ws with
  | nil =>
    intro p n out _ _ hprog
    simp [progress] at hprog
  | cons o ws ih =>
    intro p n out hall hb hprog
    have hall' : ∀ o ∈ ws, o.isWrote = true := fun o ho => hall o (List.mem_cons_of_mem _ ho)
    cases o with
    | eintr => exact absurd (hall _ (List.mem_cons_self _ _)) (by simp [WriteOutcome.isWrote])
    | fail => exact absurd (hall _ (List.mem_cons_self _ _)) (by simp [WriteOutcome.isWrote])
    | wrote k =>
      rw [progress_cons_wrote] at hprog ⊢
      have hnb : ¬ data.length < p + n := by omega
      have hw : toULL ((WriteOutcome.wrote k).ret n) = min k n := by
        simp only [WriteOutcome.ret]
        apply toULL_ofNat
        omega
      unfold pullFile.inner
      simp only [hnb, if_false, hw, Nat.zero_le, if_true, WriteOutcome.accepted]
      by_cases hkn : k < n
      · have e1 : min k n = k := Nat.min_eq_left (Nat.le_of_lt hkn)
        have e2 : (n + 18446744073709551616 - k) % 18446744073709551616 = n - k := by omega
        have e3 : (p + k) % 18446744073709551616 = p + k := by omega
        have e4 : 0 < n - k := by omega
        rw [e1, e2, e3]
        simp only [e4, if_true]
        by_cases hk0 : 0 < k
        · simp only [hk0, if_true] at hprog ⊢
          obtain ⟨ws', h1, h2, h3⟩ := ih (p + k) (n - k)
            (out ++ ((data.drop p).take n).take k) hall' (by omega) (by omega)
          refine ⟨ws', ?_, h2, by omega⟩
          rw [h1, List.append_assoc, take_take_drop_append data p n k (Nat.le_of_lt hkn)]
        · have hk : k = 0 := by omega
          subst hk
          simp only [lt_self_iff_false, if_false, Nat.add_zero, Nat.sub_zero, List.take_zero,
            List.append_nil] at hprog ⊢
          obtain ⟨ws', h1, h2, h3⟩ := ih p n out hall' hb hprog
          exact ⟨ws', h1, h2, by omega⟩
      · have e1 : min k n = n := Nat.min_eq_right (Nat.le_of_not_lt hkn)
        have e2 : (n + 18446744073709551616 - n) % 18446744073709551616 = 0 := by omega
        rw [e1, e2]
        simp only [lt_self_iff_false, if_false]
        have hpk : (if 0 < k then 1 else 0) ≤ 1 := by split <;> omega
        refine ⟨ws, ?_, hall', by omega⟩
        rw [List.take_of_length_le]
        simp only [List.length_take]
        omega


theorem toInt32_zero : toInt32 0 = 0 := by decide

theorem streamOf_cons_bytes (bs : List Nat) (rs : List ReadOutcome) :
    streamOf (.bytes bs :: rs) = bs ++ streamOf rs := by
  simp [streamOf, ReadOutcome.payload]

theorem isChunk_bytes {size : Nat} {bs : List Nat}
    (h : (ReadOutcome.bytes bs).isChunk size = true) : 0 < bs.length ∧ bs.length ≤ size := by
  simpa [ReadOutcome.isChunk] using h

theorem fill_length (bs data : List Nat) (h : bs.length ≤ data.length) :
    ((ReadOutcome.bytes bs).fill data).length = data.length := by
  simp only [ReadOutcome.fill, List.length_append, List.length_drop]
  omega

theorem fill_take (bs data : List Nat) (n : Nat) (h : n ≤ bs.length) :
    (((ReadOutcome.bytes bs).fill data).drop 0).take n = bs.take n := by
  simp only [ReadOutcome.fill, List.drop_zero]
  exact List.take_append_of_le_length h

/-- The loop of `pullFile` on a stream of chunks that holds the bytes still missing, with
writes that succeed: it returns 0 and the file receives exactly the missing bytes. -/
theorem pullFile_outer_exact (N B : Nat) (hN : N + B < 18446744073709551616) :
    ∀ (rs : List ReadOutcome) (data : List Nat) (a : Nat) (ws : List WriteOutcome)
      (out : List Nat), data.length = B → (∀ r ∈ rs, r.isChunk B = true) → rs ≠ [] →
      a ≤ N → N - a ≤ (streamOf rs).length → (∀ o ∈ ws, o.isWrote = true) →
      N - a + 1 ≤ progress ws →
      ∃ w', pullFile.outer N rs data a ws out = .done (0, w') ∧
        w'.out = out ++ (streamOf rs).take (N - a) := by
  intro rs
  induction rs with
  | nil => intro data a ws out _ _ hne; exact absurd rfl hne
  | cons r rs ih =>
    intro data a ws out hB hrs _ ha hlen hall hprog
    have hrs' : ∀ r ∈ rs, r.isChunk B = true := fun r hr => hrs r (List.mem_cons_of_mem _ hr)
    cases r with
    | error => exact absurd (hrs _ (List.mem_cons_self _ _)) (by simp [ReadOutcome.isChunk])
    | bytes bs =>
      obtain ⟨hpos, hle⟩ := isChunk_bytes (hrs _ (List.mem_cons_self _ _))
      have hfl : ((ReadOutcome.bytes bs).fill data).length = B := by
        rw [fill_length bs data (by omega), hB]
      have hsz : toULL (ReadOutcome.bytes bs).size = bs.length := by
        simp only [ReadOutcome.size]
        exact toULL_ofNat _ (by omega)
      have hamt : (a + bs.length) % 18446744073709551616 = a + bs.length := by omega
      rw [streamOf_cons_bytes] at hlen ⊢
      unfold pullFile.outer
      simp only [hsz, hpos, if_true, hamt]
      by_cases hfin : N ≤ a + bs.length
      · have hn : (bs.length + 18446744073709551616 -
            (a + bs.length + 18446744073709551616 - N) % 18446744073709551616) %
              18446744073709551616 = N - a := by omega
        simp only [hfin, if_true, hn]
        obtain ⟨ws', h1, -, -⟩ := pullFile_inner_writes ((ReadOutcome.bytes bs).fill data)
          (by omega) ws 0 (N - a) out hall (by omega) (by omega)
        rw [h1]
        simp only [Nat.cast_zero, toInt32_zero]
        refine ⟨_, rfl, ?_⟩
        simp only [fill_take bs data (N - a) (by omega)]
        rw [List.take_append_of_le_length (by omega)]
      · simp only [hfin, if_false]
        obtain ⟨ws', h1, h2, h3⟩ := pullFile_inner_writes ((ReadOutcome.bytes bs).fill data)
          (by omega) ws 0 bs.length out hall (by omega) (by omega)
        rw [h1]
        simp only [fill_take bs data bs.length (Nat.le_refl _), List.take_length]
        have hne' : rs ≠ [] := by
          intro h
          rw [h] at hlen
          simp [streamOf] at hlen
          omega
        obtain ⟨w', h4, h5⟩ := ih ((ReadOutcome.bytes bs).fill data) (a + bs.length) ws'
          (out ++ bs) hfl hrs' hne' (by omega)
          (by simp only [List.length_append] at hlen; omega) h2 (by omega)
        refine ⟨w', h4, ?_⟩
        rw [h5, List.append_assoc, show N - a = bs.length + (N - (a + bs.length)) by omega,
          List.take_append]

/-- C4.  Bulk transfer exactness: for every `fileSize` `N` (with `N + BUFFER_SIZE` below
`2^64`) and every socket stream that delivers at least `N` bytes in successive reads of
between 1 and `BUFFER_SIZE` bytes, with file writes that never fail, may be short, and of
which at least `N + 1` accept a byte, `pullFile` returns 0 and the bytes written to the
destination during the call are exactly the first `N` bytes of the stream, in order, so
never more than `N`.  `BUFFER_SIZE` is the length of the array `data`. -/
theorem pullFile_exact (data : List Nat) (w : World) (N : Nat)
    (hN : N + data.length < 18446744073709551616)
    (hreads : ∀ r ∈ w.reads, r.isChunk data.length = true) (hne : w.reads ≠ [])
    (hlen : N ≤ (streamOf w.reads).length)
    (hwrites : ∀ o ∈ w.writes, o.isWrote = true) (hprog : N + 1 ≤ progress w.writes) :
    ∃ w', pullFile data w N = .done (0, w') ∧
      w'.out = w.out ++ (streamOf w.reads).take N ∧
      (w.out ++ (streamOf w.reads).take N).length ≤ w.out.length + N := by
  obtain ⟨w', h1, h2⟩ := pullFile_outer_exact N data.length hN w.reads data 0 w.writes w.out rfl
    hreads hne (Nat.zero_le N) (by simpa using hlen) hwrites (by simpa using hprog)
  refine ⟨w', h1, by simpa using h2, ?_⟩
  simp only [List.length_append, List.length_take]
  omega

/-- The scenario of the spec: `fileSize = 10` and a single read of 15 bytes, with an array
of 16 bytes: the first 10 bytes are written and 0 is returned, with short writes and with
one full write alike. -/
theorem pullFile_exact_witness :
    (∃ w', pullFile (List.replicate 16 0)
          ⟨[.bytes [1, 2, 3, 4, 5, 6, 7, 8, 9, 10, 11, 12, 13, 14, 15]],
            List.replicate 11 (.wrote 4), []⟩ 10 = .done (0, w') ∧
        w'.out = [] ++ (streamOf
          [.bytes [1, 2, 3, 4, 5, 6, 7, 8, 9, 10, 11, 12, 13, 14, 15]]).take 10 ∧
        (([] : List Nat) ++ (streamOf
          [.bytes [1, 2, 3, 4, 5, 6, 7, 8, 9, 10, 11, 12, 13, 14, 15]]).take 10).length ≤
            ([] : List Nat).length + 10) ∧
      pullFile (List.replicate 16 0)
          ⟨[.bytes [1, 2, 3, 4, 5, 6, 7, 8, 9, 10, 11, 12, 13, 14, 15]], [.wrote 15], []⟩ 10 =
        .done (0, ⟨[], [], [1, 2, 3, 4, 5, 6, 7, 8, 9, 10]⟩) :=
  ⟨pullFile_exact (List.replicate 16 0)
      ⟨[.bytes [1, 2, 3, 4, 5, 6, 7, 8, 9, 10, 11, 12, 13, 14, 15]],
        List.replicate 11 (.wrote 4), []⟩ 10 (by decide) (by decide) (by decide) (by decide)
      (by decide) (by decide),
    by decide⟩

/-- The length `recvData` hands to `computeCRC`, read off with a checksum function that
returns its length argument: `size - DATA_OFFSET`. -/
theorem recvData_calculatedCRC_length (cfg : Config) (bs : List Nat) :
    recvData.calculatedCRC cfg (fun _ len => len) (.bytes bs) =
      toInt32 ((bs.length : Int) - (cfg.DATA_OFFSET : Int)) := rfl

/-- C11, the code at a failing input: with the widths 4 / 8 / 16, the intact 20-byte frame
`sendData` writes for `PUT` and `file.txt` carries the checksum 16783 of its 16 body bytes;
`recvData` parses 16783 from the checksum field but recomputes 36625, the digest of the
first 8 bytes at offset `CRC_SIZE` only.  Read off with a checksum function that returns
its length argument, the sender covers 16 bytes (`size - CRC_SIZE`) and the receiver 8
(`size - DATA_OFFSET`). -/
theorem recvData_checksum_covers_too_little :
    sendData.CRC specConfig sampleCRC [80, 85, 84] [102, 105, 108, 101, 46, 116, 120, 116] =
        16783 ∧
      recvData.arrivedCRC specConfig
        (.bytes [52, 49, 56, 102, 80, 85, 84, 32, 32, 32, 32, 32,
          102, 105, 108, 101, 46, 116, 120, 116]) = 16783 ∧
      recvData.calculatedCRC specConfig sampleCRC
        (.bytes [52, 49, 56, 102, 80, 85, 84, 32, 32, 32, 32, 32,
          102, 105, 108, 101, 46, 116, 120, 116]) = 36625 ∧
      toInt32 (sampleCRC [80, 85, 84, 32, 32, 32, 32, 32] 8) = 36625 ∧
      sendData.CRC specConfig (fun _ len => len) [80, 85, 84]
        [102, 105, 108, 101, 46, 116, 120, 116] = 16 ∧
      recvData.calculatedCRC specConfig (fun _ len => len)
        (.bytes [52, 49, 56, 102, 80, 85, 84, 32, 32, 32, 32, 32,
          102, 105, 108, 101, 46, 116, 120, 116]) = 8 ∧
      (([52, 49, 56, 102, 80, 85, 84, 32, 32, 32, 32, 32,
        102, 105, 108, 101, 46, 116, 120, 116] : List Nat).length : Int) -
          (specConfig.CRC_SIZE : Int) = 16 := by
  decide

theorem cstr_take (mem : List Nat) : ∀ n : Nat, (cstr mem).take n = cstr (mem.take n) := by
  induction mem with
  | nil => intro n; simp [cstr]
  | cons a t ih =>
    intro n
    cases n with
    | zero => simp [cstr]
    | succ n =>
      by_cases ha : a = 0
      · simp [cstr, ha]
      · have := ih n
        unfold cstr at this ⊢
        simp [List.takeWhile_cons, ha, this]

theorem cstr_nulFree (mem : List Nat) : ∀ b ∈ cstr mem, b ≠ 0 := by
  intro b hb
  have := List.mem_takeWhile_imp hb
  simpa using this

theorem cstr_isPrefix (mem : List Nat) : cstr mem <+: mem :=
  List.takeWhile_prefix _

theorem begins_cstr_iff (p mem : List Nat) (hp : ∀ b ∈ p, b ≠ 0) :
    p <+: cstr mem ↔ p <+: mem := by
  constructor
  · intro h
    exact h.trans (cstr_isPrefix mem)
  · rintro ⟨t, rfl⟩
    rw [cstr_append p t hp]
    exact List.prefix_append p (cstr t)

/-- The test of the `return` statement of `recvData`, on the instruction it has output, is
the test whether the received instruction field begins with the status text. -/
theorem strncmpEq_instrField (cfg : Config) (r : ReadOutcome) (status : List Nat) :
    strncmpEq ((cstr ((r.fill (List.replicate cfg.PACKET_SIZE 0)).drop cfg.CRC_SIZE)).take
        cfg.INSTR_SIZE) status (strlen status) = true ↔
      cstr status <+: recvData.instrField cfg r := by
  rw [strncmpEq_strlen, cstr_take, begins_cstr_iff _ _ (cstr_nulFree status),
    begins_cstr_iff _ _ (cstr_nulFree status)]
  rfl


theorem fill_drop_congr (bs1 bs2 zeros : List Nat) (n : Nat) (hlen : bs1.length = bs2.length)
    (hsame : bs1.drop n = bs2.drop n) :
    ((ReadOutcome.bytes bs1).fill zeros).drop n = ((ReadOutcome.bytes bs2).fill zeros).drop n := by
  simp only [ReadOutcome.fill, List.drop_append_eq_append_drop, hlen, hsame]

/-- C18, the claim as stated fails: with the widths 4 / 8 / 16, a read of the 11 bytes
`1234PUT    ` leaves the instruction `PUT    `, which begins with neither status text, and
`recvData` returns `size - DATA_OFFSET = -1`. -/
theorem recvData_minus_one_counterexample :
    recvData specConfig sampleCRC [] (.bytes [49, 50, 51, 52, 80, 85, 84, 32, 32, 32, 32]) =
        ⟨[80, 85, 84, 32, 32, 32, 32], [], -1⟩ ∧
      ¬ cstr specConfig.STATUS_ERR <+: recvData.instrField specConfig
        (.bytes [49, 50, 51, 52, 80, 85, 84, 32, 32, 32, 32]) ∧
      ¬ cstr specConfig.STATUS_EMPTY <+: recvData.instrField specConfig
        (.bytes [49, 50, 51, 52, 80, 85, 84, 32, 32, 32, 32]) := by
  decide

/-- C18, amended.  The result of `recvData` does not depend on the checksum field: two
received buffers of the same size that differ only in their first `CRC_SIZE` bytes give the
same instruction, the same data and the same return value.  The value is `-1` when the
received instruction field begins with the `STATUS_ERR` or the `STATUS_EMPTY` text and
`size - DATA_OFFSET` otherwise; so, except for a read of exactly `DATA_OFFSET - 1` bytes,
it is `-1` if and only if the field begins with one of the two texts. -/
theorem recvData_checksum_field_ignored (cfg : Config) (computeCRC : List Nat → Int → Int)
    (instruction0 bs1 bs2 : List Nat) (hlen : bs1.length = bs2.length)
    (hsame : bs1.drop cfg.CRC_SIZE = bs2.drop cfg.CRC_SIZE) :
    recvData cfg computeCRC instruction0 (.bytes bs1) =
        recvData cfg computeCRC instruction0 (.bytes bs2) ∧
      (recvData cfg computeCRC instruction0 (.bytes bs1)).ret =
        (if cstr cfg.STATUS_ERR <+: recvData.instrField cfg (.bytes bs1) ∨
            cstr cfg.STATUS_EMPTY <+: recvData.instrField cfg (.bytes bs1) then -1
          else (bs1.length : Int) - (cfg.DATA_OFFSET : Int)) ∧
      ((bs1.length : Int) - (cfg.DATA_OFFSET : Int) ≠ -1 →
        ((recvData cfg computeCRC instruction0 (.bytes bs1)).ret = -1 ↔
          (cstr cfg.STATUS_ERR <+: recvData.instrField cfg (.bytes bs1) ∨
            cstr cfg.STATUS_EMPTY <+: recvData.instrField cfg (.bytes bs1)))) := by
  have h1 := fill_drop_congr bs1 bs2 (List.replicate cfg.PACKET_SIZE 0) cfg.CRC_SIZE hlen hsame
  have h2 : ((ReadOutcome.bytes bs1).fill (List.replicate cfg.PACKET_SIZE 0)).drop
      cfg.DATA_OFFSET =
      ((ReadOutcome.bytes bs2).fill (List.replicate cfg.PACKET_SIZE 0)).drop cfg.DATA_OFFSET := by
    have := congrArg (List.drop cfg.INSTR_SIZE) h1
    simpa only [List.drop_drop, Config.DATA_OFFSET, Nat.add_comm] using this
  have he := strncmpEq_instrField cfg (.bytes bs1) cfg.STATUS_ERR
  have hm := strncmpEq_instrField cfg (.bytes bs1) cfg.STATUS_EMPTY
  have hret : (recvData cfg computeCRC instruction0 (.bytes bs1)).ret =
      (if cstr cfg.STATUS_ERR <+: recvData.instrField cfg (.bytes bs1) ∨
          cstr cfg.STATUS_EMPTY <+: recvData.instrField cfg (.bytes bs1) then -1
        else (bs1.length : Int) - (cfg.DATA_OFFSET : Int)) := by
    rw [recvData_eq]
    simp only [Bool.or_eq_true, he, hm, ReadOutcome.size]
  refine ⟨?_, hret, ?_⟩
  · rw [recvData_eq, recvData_eq, h1, h2]
    simp only [ReadOutcome.size, hlen]
  · intro hne
    rw [hret]
    constructor
    · intro h
      by_contra hb
      rw [if_neg hb] at h
      exact hne h
    · intro hb
      rw [if_pos hb]

/-- Two 13-byte frames with the checksum fields `0000` and `ffff` and the same body. -/
theorem recvData_checksum_field_ignored_witness :
    recvData specConfig sampleCRC []
          (.bytes [48, 48, 48, 48, 80, 85, 84, 32, 32, 32, 32, 32, 120]) =
        recvData specConfig sampleCRC []
          (.bytes [102, 102, 102, 102, 80, 85, 84, 32, 32, 32, 32, 32, 120]) ∧
      (recvData specConfig sampleCRC []
          (.bytes [48, 48, 48, 48, 80, 85, 84, 32, 32, 32, 32, 32, 120])).ret =
        (if cstr specConfig.STATUS_ERR <+: recvData.instrField specConfig
              (.bytes [48, 48, 48, 48, 80, 85, 84, 32, 32, 32, 32, 32, 120]) ∨
            cstr specConfig.STATUS_EMPTY <+: recvData.instrField specConfig
              (.bytes [48, 48, 48, 48, 80, 85, 84, 32, 32, 32, 32, 32, 120]) then -1
          else (([48, 48, 48, 48, 80, 85, 84, 32, 32, 32, 32, 32, 120] : List Nat).length : Int) -
            (specConfig.DATA_OFFSET : Int)) ∧
      ((([48, 48, 48, 48, 80, 85, 84, 32, 32, 32, 32, 32, 120] : List Nat).length : Int) -
          (specConfig.DATA_OFFSET : Int) ≠ -1 →
        ((recvData specConfig sampleCRC []
            (.bytes [48, 48, 48, 48, 80, 85, 84, 32, 32, 32, 32, 32, 120])).ret = -1 ↔
          (cstr specConfig.STATUS_ERR <+: recvData.instrField specConfig
              (.bytes [48, 48, 48, 48, 80, 85, 84, 32, 32, 32, 32, 32, 120]) ∨
            cstr specConfig.STATUS_EMPTY <+: recvData.instrField specConfig
              (.bytes [48, 48, 48, 48, 80, 85, 84, 32, 32, 32, 32, 32, 120])))) :=
  recvData_checksum_field_ignored specConfig sampleCRC []
    [48, 48, 48, 48, 80, 85, 84, 32, 32, 32, 32, 32, 120]
    [102, 102, 102, 102, 80, 85, 84, 32, 32, 32, 32, 32, 120] (by decide) (by decide)


/-! ## `pullFile`: what it returns and what it takes off the socket -/

/-- The inner loop of `pullFile` is never left by its `return -1`: because `nWritten` is
unsigned the test `nWritten >= 0` always holds, and the loop ends only with `nRead = 0`. -/
theorem pullFile_inner_done (data : List Nat) :
    ∀ (ws : List WriteOutcome) (p n : Nat) (out : List Nat) (step : Step) (n' : Nat)
      (ws' : List WriteOutcome) (out' : List Nat),
      pullFile.inner data ws p n out = .done (step, n', ws', out') →
      step = .next ∧ n' = 0 := by
  intro ws
  induction ws with
  | nil => intro p n out step n' ws' out' h; simp [pullFile.inner] at h
  | cons o ws ih =>
    intro p n out step n' ws' out' h
    unfold pullFile.inner at h
    split at h
    · exact absurd h (by simp)
    · simp only [Nat.zero_le, if_true] at h
      split at h
      · exact ih _ _ _ _ _ _ _ h
      · rename_i hn
        simp only [Run.done.injEq, Prod.mk.injEq] at h
        refine ⟨h.1.symm, ?_⟩
        rw [← h.2.1]
        omega

/-- Whenever `pullFile` returns, it returns 0. -/
theorem pullFile_outer_returns_zero (N : Nat) :
    ∀ (rs : List ReadOutcome) (data : List Nat) (a : Nat) (ws : List WriteOutcome)
      (out : List Nat) (v : Int) (w' : World),
      pullFile.outer N rs data a ws out = .done (v, w') → v = 0 := by
  intro rs
  induction rs with
  | nil => intro data a ws out v w' h; simp [pullFile.outer] at h
  | cons r rs ih =>
    intro data a ws out v w' h
    unfold pullFile.outer at h
    simp only at h
    split at h
    · split at h
      · rename_i nRead ws1 out1 heq
        have hz := (pullFile_inner_done _ _ _ _ _ _ _ _ _ heq).2
        split at h
        · simp only [Run.done.injEq, Prod.mk.injEq] at h
          rw [← h.1, hz]
          decide
        · exact ih _ _ _ _ _ _ h
      · rename_i v1 n1 ws1 out1 heq
        exact absurd (pullFile_inner_done _ _ _ _ _ _ _ _ _ heq).1 (by simp)
      · simp at h
      · simp at h
    · rename_i hn
      simp only [Run.done.injEq, Prod.mk.injEq] at h
      have : toULL r.size = 0 := by omega
      rw [← h.1, this]
      decide

theorem pullFile_returns_zero (data : List Nat) (w w' : World) (N : Nat) (v : Int)
    (h : pullFile data w N = .done (v, w')) : v = 0 :=
  pullFile_outer_returns_zero N w.reads data 0 w.writes w.out v w' h

/-- C13, the code at failing inputs, with a 16-byte array that held sevens before the call.
A first `read` that returns `-1` with `fileSize = 5` makes `pullFile` write 5 bytes of the
previous content of the array to the file and return 0.  A `write` that returns `-1` with
`errno` other than `EINTR`, after 2 of the 3 bytes of a chunk were written, is followed by
one more `write`, of the bytes `2, 3`, and `pullFile` returns 0. -/
theorem pullFile_hard_error_not_reported :
    pullFile (List.replicate 16 7) ⟨[.error, .bytes [9]], [.wrote 100, .wrote 1], []⟩ 5 =
        .done (0, ⟨[.bytes [9]], [.wrote 1], [7, 7, 7, 7, 7]⟩) ∧
      pullFile (List.replicate 16 7) ⟨[.bytes [1, 2, 3]], [.wrote 2, .fail, .wrote 100], []⟩ 3 =
        .done (0, ⟨[], [], [1, 2, 2, 3]⟩) := by
  decide

/-- C14, the code at failing inputs, with a 16-byte array and `fileSize = 3`.  A write
interrupted after 2 of the 3 bytes of a chunk were written makes `pullFile` step the
pointer one byte back and write `2, 3`: the file receives `1, 2, 2, 3`.  A first write that
is interrupted makes it write from one byte in front of the array. -/
theorem pullFile_interrupted_write_duplicates :
    pullFile (List.replicate 16 7) ⟨[.bytes [1, 2, 3]], [.wrote 2, .eintr, .wrote 100], []⟩ 3 =
        .done (0, ⟨[], [], [1, 2, 2, 3]⟩) ∧
      pullFile (List.replicate 16 7) ⟨[.bytes [1, 2, 3]], [.eintr, .wrote 100], []⟩ 3 =
        .outOfBounds := by
  decide


theorem streamOf_append (xs ys : List ReadOutcome) :
    streamOf (xs ++ ys) = streamOf xs ++ streamOf ys := by
  simp [streamOf]

theorem streamOf_nil : streamOf [] = [] := rfl

/-- The loop of `pullFile`, with the reads it consumes: all chunks up to and including the
one with which the running total reaches the size. -/
theorem pullFile_outer_consumed (N B : Nat) (hN : N + B < 18446744073709551616) :
    ∀ (rs : List ReadOutcome) (data : List Nat) (a : Nat) (ws : List WriteOutcome)
      (out : List Nat), data.length = B → (∀ r ∈ rs, r.isChunk B = true) → rs ≠ [] →
      a ≤ N → N - a ≤ (streamOf rs).length → (∀ o ∈ ws, o.isWrote = true) →
      N - a + 1 ≤ progress ws →
      ∃ pre last rest ws', rs = pre ++ last :: rest ∧
        pullFile.outer N rs data a ws out =
          .done (0, ⟨rest, ws', out ++ (streamOf (pre ++ [last])).take (N - a)⟩) ∧
        a + (streamOf pre).length ≤ N ∧ N ≤ a + (streamOf (pre ++ [last])).length ∧
        (a < N → a + (streamOf pre).length < N) := by
  intro rs
  induction rs with
  | nil => intro data a ws out _ _ hne; exact absurd rfl hne
  | cons r rs ih =>
    intro data a ws out hB hrs _ ha hlen hall hprog
    have hrs' : ∀ r ∈ rs, r.isChunk B = true := fun r hr => hrs r (List.mem_cons_of_mem _ hr)
    cases r with
    | error => exact absurd (hrs _ (List.mem_cons_self _ _)) (by simp [ReadOutcome.isChunk])
    | bytes bs =>
      obtain ⟨hpos, hle⟩ := isChunk_bytes (hrs _ (List.mem_cons_self _ _))
      have hfl : ((ReadOutcome.bytes bs).fill data).length = B := by
        rw [fill_length bs data (by omega), hB]
      have hsz : toULL (ReadOutcome.bytes bs).size = bs.length := by
        simp only [ReadOutcome.size]
        exact toULL_ofNat _ (by omega)
      have hamt : (a + bs.length) % 18446744073709551616 = a + bs.length := by omega
      rw [streamOf_cons_bytes] at hlen
      unfold pullFile.outer
      simp only [hsz, hpos, if_true, hamt]
      by_cases hfin : N ≤ a + bs.length
      · have hn : (bs.length + 18446744073709551616 -
            (a + bs.length + 18446744073709551616 - N) % 18446744073709551616) %
              18446744073709551616 = N - a := by omega
        simp only [hfin, if_true, hn]
        obtain ⟨ws', h1, -, -⟩ := pullFile_inner_writes ((ReadOutcome.bytes bs).fill data)
          (by omega) ws 0 (N - a) out hall (by omega) (by omega)
        rw [h1]
        simp only [Nat.cast_zero, toInt32_zero]
        refine ⟨[], .bytes bs, rs, ws', rfl, ?_, by simp [streamOf_nil]; omega, ?_, ?_⟩
        · simp only [fill_take bs data (N - a) (by omega), List.nil_append,
            streamOf_cons_bytes, streamOf_nil, List.append_nil]
        · simp only [List.nil_append, streamOf_cons_bytes, streamOf_nil, List.append_nil]
          omega
        · intro h
          simpa [streamOf_nil] using h
      · simp only [hfin, if_false]
        obtain ⟨ws', h1, h2, h3⟩ := pullFile_inner_writes ((ReadOutcome.bytes bs).fill data)
          (by omega) ws 0 bs.length out hall (by omega) (by omega)
        rw [h1]
        simp only [fill_take bs data bs.length (Nat.le_refl _), List.take_length]
        have hne' : rs ≠ [] := by
          intro h
          rw [h] at hlen
          simp [streamOf] at hlen
          omega
        obtain ⟨pre, last, rest, ws2, h4, h5, h6, h7, h8⟩ :=
          ih ((ReadOutcome.bytes bs).fill data)
            (a + bs.length) ws' (out ++ bs) hfl hrs' hne' (by omega)
            (by simp only [List.length_append] at hlen; omega) h2 (by omega)
        have h9 := h8 (by omega)
        refine ⟨.bytes bs :: pre, last, rest, ws2, by rw [h4]; rfl, ?_, ?_, ?_, ?_⟩
        · rw [h5, List.cons_append, streamOf_cons_bytes, List.append_assoc,
            show N - a = bs.length + (N - (a + bs.length)) by omega, List.take_append]
        · rw [streamOf_cons_bytes, List.length_append]
          omega
        · rw [List.cons_append, streamOf_cons_bytes, List.length_append]
          omega
        · intro _
          rw [streamOf_cons_bytes, List.length_append]
          omega

/-- C12, the claim as stated fails: with `fileSize = 10` and a socket that holds 16 bytes,
delivered as a read of 15 bytes and a read of 1 byte, `pullFile` takes the 15 bytes off the
socket, writes 10 of them and leaves 1 byte on the stream: the bytes 11 to 15 are in
neither place. -/
theorem pullFile_over_consumption_counterexample :
    pullFile (List.replicate 16 0)
        ⟨[.bytes [1, 2, 3, 4, 5, 6, 7, 8, 9, 10, 11, 12, 13, 14, 15], .bytes [16]],
          [.wrote 15], []⟩ 10 =
      .done (0, ⟨[.bytes [16]], [], [1, 2, 3, 4, 5, 6, 7, 8, 9, 10]⟩) := by
  decide

theorem streamOf_single_length (r : ReadOutcome) (size : Nat)
    (h : r.isChunk size = true) : (streamOf [r]).length ≤ size := by
  cases r with
  | error => simp [ReadOutcome.isChunk] at h
  | bytes bs =>
    have := (isChunk_bytes h).2
    simpa [streamOf, ReadOutcome.payload] using this

/-- C12, amended.  `pullFile` takes whole chunks off the socket.  Under the conditions of
C4 (`BUFFER_SIZE` being the length of `data`), the reads it consumes are all the chunks up
to and including the one with which the running total reaches `N`, and nothing of them
stays on the stream.  The bytes taken number at least `N` and at most `N + BUFFER_SIZE`,
fewer than `N + BUFFER_SIZE` when `N > 0`; the chunks before the last one hold at most `N`
bytes, fewer than `N` when `N > 0`; only the first `N` bytes taken are written to the
file. -/
theorem pullFile_takes_whole_chunks (data : List Nat) (w : World) (N : Nat)
    (hN : N + data.length < 18446744073709551616)
    (hreads : ∀ r ∈ w.reads, r.isChunk data.length = true) (hne : w.reads ≠ [])
    (hlen : N ≤ (streamOf w.reads).length)
    (hwrites : ∀ o ∈ w.writes, o.isWrote = true) (hprog : N + 1 ≤ progress w.writes) :
    ∃ pre last w', w.reads = pre ++ last :: w'.reads ∧
      pullFile data w N = .done (0, w') ∧
      w'.out = w.out ++ (streamOf (pre ++ [last])).take N ∧
      (streamOf pre).length ≤ N ∧ N ≤ (streamOf (pre ++ [last])).length ∧
      (streamOf (pre ++ [last])).length ≤ N + data.length ∧
      (0 < N → (streamOf pre).length < N ∧
        (streamOf (pre ++ [last])).length < N + data.length) := by
  obtain ⟨pre, last, rest, ws', h1, h2, h3, h4, h5⟩ := pullFile_outer_consumed N data.length hN
    w.reads data 0 w.writes w.out rfl hreads hne (Nat.zero_le N) (by simpa using hlen) hwrites
    (by simpa using hprog)
  have hlast : (streamOf [last]).length ≤ data.length :=
    streamOf_single_length last data.length (hreads last (by rw [h1]; simp))
  simp only [Nat.zero_add] at h3 h4 h5
  refine ⟨pre, last, ⟨rest, ws', _⟩, h1, h2, by simp, h3, h4, ?_, ?_⟩
  · rw [streamOf_append, List.length_append]
    omega
  · intro hpos
    have := h5 hpos
    rw [streamOf_append, List.length_append]
    exact ⟨this, by omega⟩

/-- The counterexample's stream under the conditions of the theorem. -/
theorem pullFile_takes_whole_chunks_witness :
    ∃ pre last w',
      (World.mk [.bytes [1, 2, 3, 4, 5, 6, 7, 8, 9, 10, 11, 12, 13, 14, 15], .bytes [16]]
        (List.replicate 11 (.wrote 4)) []).reads = pre ++ last :: w'.reads ∧
      pullFile (List.replicate 16 0)
        ⟨[.bytes [1, 2, 3, 4, 5, 6, 7, 8, 9, 10, 11, 12, 13, 14, 15], .bytes [16]],
          List.replicate 11 (.wrote 4), []⟩ 10 = .done (0, w') ∧
      w'.out = (World.mk [.bytes [1, 2, 3, 4, 5, 6, 7, 8, 9, 10, 11, 12, 13, 14, 15], .bytes [16]]
        (List.replicate 11 (.wrote 4)) []).out ++ (streamOf (pre ++ [last])).take 10 ∧
      (streamOf pre).length ≤ 10 ∧ 10 ≤ (streamOf (pre ++ [last])).length ∧
      (streamOf (pre ++ [last])).length ≤ 10 + (List.replicate 16 0).length ∧
      (0 < 10 → (streamOf pre).length < 10 ∧
        (streamOf (pre ++ [last])).length < 10 + (List.replicate 16 0).length) :=
  pullFile_takes_whole_chunks (List.replicate 16 0)
    ⟨[.bytes [1, 2, 3, 4, 5, 6, 7, 8, 9, 10, 11, 12, 13, 14, 15], .bytes [16]],
      List.replicate 11 (.wrote 4), []⟩ 10 (by decide) (by decide) (by decide) (by decide)
    (by decide) (by decide)

/-! ## `pushFile`: a hard write error -/

theorem take_take_drop_add (data : List Nat) (p n k m : Nat) (hk : k ≤ n) :
    ((data.drop p).take n).take k ++ (data.drop (p + k)).take m =
      (data.drop p).take (k + m) := by
  rw [List.take_take, Nat.min_eq_left hk, ← List.drop_drop, List.take_add]

/-- The inner loop of `pushFile` on a script of writes whose first hard failure is marked:
either the chunk is sent before that write is made, or the loop returns `-1` at that
write, with part of the chunk sent and the writes behind the failure untouched. -/
theorem pushFile_inner_fail (data : List Nat) (ws2 : List WriteOutcome) :
    ∀ (ws1 : List WriteOutcome) (p n : Nat) (out : List Nat), 0 < n → p + n ≤ data.length →
      WriteOutcome.fail ∉ ws1 →
      (∃ ws0, WriteOutcome.fail ∉ ws0 ∧
        pushFile.inner data (ws1 ++ .fail :: ws2) p (n : Int) out =
          .done (.next, ws0 ++ .fail :: ws2, out ++ (data.drop p).take n)) ∨
      (∃ m, m < n ∧
        pushFile.inner data (ws1 ++ .fail :: ws2) p (n : Int) out =
          .done (.ret (-1), ws2, out ++ (data.drop p).take m)) := by
  intro ws1
  induction ws1 with
  | nil =>
    intro p n out hn hb _
    right
    refine ⟨0, hn, ?_⟩
    have hnb : ¬ data.length < p + n := by omega
    simp [pushFile.inner, hnb, WriteOutcome.ret, WriteOutcome.accepted, WriteOutcome.isEINTR]
  | cons o ws1 ih =>
    intro p n out hn hb hnf
    have hnf' : WriteOutcome.fail ∉ ws1 := fun h => hnf (List.mem_cons_of_mem _ h)
    have hnb : ¬ data.length < p + n := by omega
    rw [List.cons_append]
    unfold pushFile.inner
    simp only [Int.toNat_ofNat, hnb, if_false]
    cases o with
    | fail => exact absurd (List.mem_cons_self _ _) hnf
    | eintr =>
      have hn' : (0 : Int) < (n : Int) := by omega
      simp only [WriteOutcome.ret, WriteOutcome.accepted, WriteOutcome.isEINTR, hn',
        List.append_nil, if_true, Bool.not_true]
      simpa using ih p n out hn hb hnf'
    | wrote k =>
      simp only [WriteOutcome.ret, WriteOutcome.accepted]
      have h0 : (0 : Int) ≤ ((min k n : Nat) : Int) := Int.ofNat_nonneg _
      simp only [h0, if_true, Int.toNat_ofNat]
      by_cases hkn : k < n
      · have e1 : min k n = k := Nat.min_eq_left (Nat.le_of_lt hkn)
        have e2 : (n : Int) - ((min k n : Nat) : Int) = ((n - k : Nat) : Int) := by
          rw [e1]; omega
        have e3 : (0 : Int) < ((n - k : Nat) : Int) := by omega
        rw [e2, e1]
        simp only [e3, if_true]
        rcases ih (p + k) (n - k) (out ++ ((data.drop p).take n).take k) (by omega) (by omega)
          hnf' with ⟨ws0, h1, h2⟩ | ⟨m, h1, h2⟩
        · left
          refine ⟨ws0, h1, ?_⟩
          rw [h2, List.append_assoc, take_take_drop_append data p n k (Nat.le_of_lt hkn)]
        · right
          refine ⟨k + m, by omega, ?_⟩
          rw [h2, List.append_assoc, take_take_drop_add data p n k m (Nat.le_of_lt hkn)]
      · have e1 : min k n = n := Nat.min_eq_right (Nat.le_of_not_lt hkn)
        have e3 : ¬ (0 : Int) < (n : Int) - ((min k n : Nat) : Int) := by rw [e1]; omega
        simp only [e3, if_false]
        left
        refine ⟨ws1, hnf', ?_⟩
        rw [List.take_of_length_le]
        simp only [List.length_take]
        omega


theorem pushFile_outer_fail (ws2 : List WriteOutcome) :
    ∀ (rs : List ReadOutcome) (data : List Nat) (ws1 : List WriteOutcome) (out : List Nat),
      (∃ r ∈ rs, r.size ≤ 0) → WriteOutcome.fail ∉ ws1 →
      ∃ v w', pushFile.outer rs data (ws1 ++ .fail :: ws2) out = .done (v, w') ∧
        ((∃ ws0, w'.writes = ws0 ++ .fail :: ws2) ∨
          (v = -1 ∧ w'.writes = ws2 ∧
            ∃ (chunks : List (List Nat)) (c : List Nat) (m : Nat),
              rs = chunks.map ReadOutcome.bytes ++ ReadOutcome.bytes c :: w'.reads ∧
              m < c.length ∧ w'.out = out ++ chunks.flatten ++ c.take m)) := by
  intro rs
  induction rs with
  | nil =>
    intro data ws1 out hend _
    obtain ⟨r, hr, -⟩ := hend
    cases hr
  | cons r rs ih =>
    intro data ws1 out hend hnf
    unfold pushFile.outer
    by_cases hsz : (0 : Int) < r.size
    · simp only [hsz, if_true]
      have hend' : ∃ r' ∈ rs, r'.size ≤ 0 := by
        obtain ⟨r', hr', hle⟩ := hend
        rcases List.mem_cons.mp hr' with rfl | hr'
        · omega
        · exact ⟨r', hr', hle⟩
      cases r with
      | error => simp [ReadOutcome.size] at hsz
      | bytes bs =>
        simp only [ReadOutcome.size] at hsz ⊢
        have hpos : 0 < bs.length := by omega
        have hb : 0 + bs.length ≤ ((ReadOutcome.bytes bs).fill data).length := by
          simp [ReadOutcome.fill]
        rcases pushFile_inner_fail ((ReadOutcome.bytes bs).fill data) ws2 ws1 0 bs.length out
          hpos hb hnf with ⟨ws0, h1, h2⟩ | ⟨m, h1, h2⟩
        · rw [h2]
          simp only [fill_take bs data bs.length (Nat.le_refl _), List.take_length]
          obtain ⟨v, w', h3, h4⟩ := ih ((ReadOutcome.bytes bs).fill data) ws0 (out ++ bs)
            hend' h1
          refine ⟨v, w', h3, ?_⟩
          rcases h4 with h4 | ⟨h5, h6, chunks, c, m, h7, h8, h9⟩
          · exact Or.inl h4
          · refine Or.inr ⟨h5, h6, bs :: chunks, c, m, by rw [h7]; rfl, h8, ?_⟩
            rw [h9, List.flatten_cons]
            simp only [List.append_assoc]
        · rw [h2]
          simp only [fill_take bs data m (Nat.le_of_lt h1)]
          exact ⟨-1, _, rfl, Or.inr ⟨rfl, rfl, [], bs, m, rfl, h1, by simp⟩⟩
    · simp only [hsz, if_false]
      exact ⟨_, _, rfl, Or.inl ⟨ws1, rfl⟩⟩

/-- C15.  `pushFile` aborts on a hard write error.  Take the first socket write of the
script that returns `-1` with `errno` other than `EINTR`, and a file whose reads come to an
end.  Then `pushFile` returns, and either the transfer is over before that write is made
(it is still in the script), or `pushFile` returns `-1` at once: the writes behind the
failing one are untouched, so is every read behind the chunk that was being sent, and the
socket has accepted the chunks before it and a part of it. -/
theorem pushFile_hard_write_error (data : List Nat) (w : World)
    (ws1 ws2 : List WriteOutcome) (hw : w.writes = ws1 ++ .fail :: ws2)
    (hws1 : WriteOutcome.fail ∉ ws1) (hend : ∃ r ∈ w.reads, r.size ≤ 0) :
    ∃ v w', pushFile data w = .done (v, w') ∧
      ((∃ ws0, w'.writes = ws0 ++ .fail :: ws2) ∨
        (v = -1 ∧ w'.writes = ws2 ∧
          ∃ (chunks : List (List Nat)) (c : List Nat) (m : Nat),
            w.reads = chunks.map ReadOutcome.bytes ++ ReadOutcome.bytes c :: w'.reads ∧
            m < c.length ∧ w'.out = w.out ++ chunks.flatten ++ c.take m)) := by
  unfold pushFile
  rw [hw]
  exact pushFile_outer_fail ws2 w.reads data ws1 w.out hend hws1

/-- A file of 5 bytes read in chunks of 3 and 2; the third socket write fails after 2
bytes were sent: `pushFile` returns `-1`, the second chunk is not read and the fourth write
is not made. -/
theorem pushFile_hard_write_error_witness :
    (∃ v w', pushFile (List.replicate 4 0)
          ⟨[.bytes [1, 2, 3], .bytes [4, 5], .bytes []],
            [.wrote 2, .eintr, .fail, .wrote 5], []⟩ = .done (v, w') ∧
        ((∃ ws0, w'.writes = ws0 ++ .fail :: [.wrote 5]) ∨
          (v = -1 ∧ w'.writes = [.wrote 5] ∧
            ∃ (chunks : List (List Nat)) (c : List Nat) (m : Nat),
              (World.mk [.bytes [1, 2, 3], .bytes [4, 5], .bytes []]
                [.wrote 2, .eintr, .fail, .wrote 5] []).reads =
                chunks.map ReadOutcome.bytes ++ ReadOutcome.bytes c :: w'.reads ∧
              m < c.length ∧
              w'.out = (World.mk [.bytes [1, 2, 3], .bytes [4, 5], .bytes []]
                [.wrote 2, .eintr, .fail, .wrote 5] []).out ++ chunks.flatten ++ c.take m))) ∧
      pushFile (List.replicate 4 0)
          ⟨[.bytes [1, 2, 3], .bytes [4, 5], .bytes []],
            [.wrote 2, .eintr, .fail, .wrote 5], []⟩ =
        .done (-1, ⟨[.bytes [4, 5], .bytes []], [.wrote 5], [1, 2]⟩) :=
  ⟨pushFile_hard_write_error (List.replicate 4 0)
      ⟨[.bytes [1, 2, 3], .bytes [4, 5], .bytes []], [.wrote 2, .eintr, .fail, .wrote 5], []⟩
      [.wrote 2, .eintr] [.wrote 5] rfl (by decide) (by decide),
    by decide⟩


/-! ## `isNumeric` -/

theorem isDigitChar_iff (c : Nat) : isDigitChar c = true ↔ 48 ≤ c ∧ c ≤ 57 := by
  simp [isDigitChar]

theorem charVal_digit_test (c : Nat) (hbyte : c < 256) :
    (charVal c = -49 ∨ charVal c < 48 ∨ charVal c > 57) ↔ isDigitChar c = false := by
  rw [← Bool.not_eq_true, isDigitChar_iff]
  unfold charVal
  split <;> omega

theorem isNumeric_loop_zero (s : List Nat) : isNumeric.loop s 0 = 0 := by
  induction s with
  | nil => rfl
  | cons c t ih => simp [isNumeric.loop, ih]

theorem isNumeric_loop_eq (s : List Nat) (hbytes : ∀ b ∈ s, b < 256) :
    isNumeric.loop s 1 = if s.all isDigitChar then 1 else 0 := by
  induction s with
  | nil => rfl
  | cons c t ih =>
    have hb : c < 256 := hbytes c (List.mem_cons_self _ _)
    have ih := ih (fun b h => hbytes b (List.mem_cons_of_mem _ h))
    unfold isNumeric.loop
    by_cases hc : isDigitChar c = true
    · have : ¬ (charVal c = -49 ∨ charVal c < 48 ∨ charVal c > 57) := by
        rw [charVal_digit_test c hb]; simp [hc]
      simp only [this, if_false, ih, List.all_cons, hc, Bool.true_and]
    · have : charVal c = -49 ∨ charVal c < 48 ∨ charVal c > 57 := by
        rw [charVal_digit_test c hb]; simpa using hc
      simp [this, isNumeric_loop_zero, hc]

theorem all_digits_bytes (s : List Nat) (hs : s.all isDigitChar = true) : ∀ b ∈ s, b < 256 := by
  intro b hb
  have := (isDigitChar_iff b).mp (List.all_eq_true.mp hs b hb)
  omega

theorem decDigits_eq (s : List Nat) (hs : s.all isDigitChar = true) :
    ∀ acc : Nat, decDigits s acc = acc * 10 ^ s.length + decimalValue s := by
  induction s with
  | nil => intro acc; simp [decDigits, decimalValue]
  | cons c t ih =>
    intro acc
    simp only [List.all_cons, Bool.and_eq_true] at hs
    have hc := (isDigitChar_iff c).mp hs.1
    have hv : decimalValue (c :: t) = (c - 48) * 10 ^ t.length + decimalValue t := by
      simp only [decimalValue, List.map_cons, List.reverse_cons, Nat.ofDigits_append,
        List.length_reverse, List.length_map, Nat.ofDigits_singleton]
      ring
    simp only [decDigits, hc, and_self, if_true, ih hs.2, hv, List.length_cons]
    ring

theorem all_digits_nulFree (s : List Nat) (hs : s.all isDigitChar = true) : ∀ b ∈ s, b ≠ 0 := by
  intro b hb
  have := (isDigitChar_iff b).mp (List.all_eq_true.mp hs b hb)
  omega

theorem atoi_digits (s : List Nat) (hs : s.all isDigitChar = true)
    (hfit : decimalValue s ≤ 2147483647) : atoi s = some (decimalValue s : Int) := by
  have hcs := cstr_of_nulFree s (all_digits_nulFree s hs)
  have hval := decDigits_eq s hs 0
  simp only [Nat.zero_mul, Nat.zero_add] at hval
  unfold atoi
  rw [hcs]
  cases s with
  | nil =>
    simp [decDigits, decimalValue]
  | cons c t =>
    simp only [List.all_cons, Bool.and_eq_true] at hs
    have hc := (isDigitChar_iff c).mp hs.1
    have hsp : isspace c = false := by
      unfold isspace
      have h1 : ¬ c = 32 := by omega
      have h2 : ¬ c ≤ 13 := by omega
      simp [h1, h2]
    have h45 : ¬ c = 45 := by omega
    have h43 : ¬ c = 43 := by omega
    simp only [List.dropWhile_cons, hsp, List.head?_cons]
    simp [h45, h43, hval]
    omega

/-- Every non-empty text of decimal digits whose value fits an `int` gives that value. -/
theorem isNumeric_digits (s : List Nat) (hs : s.all isDigitChar = true)
    (hfit : decimalValue s ≤ 2147483647) : isNumeric s = some (decimalValue s : Int) := by
  unfold isNumeric
  rw [cstr_of_nulFree s (all_digits_nulFree s hs),
    isNumeric_loop_eq s (all_digits_bytes s hs), hs]
  simp only [if_true]
  exact atoi_digits s hs hfit

/-- Every C string that holds a character other than a decimal digit gives `-1`. -/
theorem isNumeric_not_digits (s : List Nat) (hbytes : ∀ b ∈ cstr s, b < 256)
    (hs : (cstr s).all isDigitChar = false) : isNumeric s = some (-1) := by
  unfold isNumeric
  rw [isNumeric_loop_eq _ hbytes, hs]
  simp

/-- C17, the code at a failing input: for the empty string the loop body never runs,
`conclusion` stays 1 and `isNumeric` returns `atoi("")`, which is 0, not `-1`. -/
theorem isNumeric_empty_string :
    isNumeric.loop (cstr []) 1 = 1 ∧ atoi [] = some 0 ∧ isNumeric [] = some 0 := by
  decide


/-! ## `splitLine` -/

theorem splitLine_count_acc : ∀ (s : List Nat) (c : Nat),
    splitLine.count s c = c + splitLine.count s 0
  | [], c => by simp [splitLine.count]
  | [_], c => by simp [splitLine.count]
  | a :: b :: t, c => by
    unfold splitLine.count
    rw [splitLine_count_acc (b :: t) (if a = 32 ∧ b ≠ 0 ∧ b ≠ 32 then c + 1 else c),
      splitLine_count_acc (b :: t) (if a = 32 ∧ b ≠ 0 ∧ b ≠ 32 then 0 + 1 else 0)]
    split <;> omega

theorem splitLine_count_cons (a : Nat) (t : List Nat) (ht : ∀ b ∈ t, b ≠ 0) :
    splitLine.count (a :: t) 0 =
      (if a = 32 ∧ startsWord t = true then 1 else 0) + splitLine.count t 0 := by
  cases t with
  | nil => simp [splitLine.count, startsWord]
  | cons b t =>
    have hb : b ≠ 0 := ht b (List.mem_cons_self _ _)
    show splitLine.count (b :: t) (if a = 32 ∧ b ≠ 0 ∧ b ≠ 32 then 0 + 1 else 0) = _
    rw [splitLine_count_acc]
    simp [startsWord, hb]

/-- With the space as the only delimiter, the number of tokens is the number of spaces
directly followed by another character, plus one when a token is under way or begins at
the front. -/
theorem strtokAll_length : ∀ (s cur : List Nat), (∀ b ∈ s, b ≠ 0) →
    (strtokAll [32] s cur).length =
      splitLine.count s 0 + (if cur ≠ [] ∨ startsWord s = true then 1 else 0)
  | [], cur, _ => by
    by_cases hc : cur = [] <;> simp [strtokAll, splitLine.count, startsWord, hc]
  | a :: t, cur, hs => by
    have ht : ∀ b ∈ t, b ≠ 0 := fun b hb => hs b (List.mem_cons_of_mem _ hb)
    rw [splitLine_count_cons a t ht]
    unfold strtokAll
    by_cases ha : a = 32
    · subst ha
      have hsw : startsWord (32 :: t) = false := rfl
      simp only [List.mem_singleton, if_true, true_and, hsw]
      have ih := strtokAll_length t [] ht
      simp only [ne_eq, not_true_eq_false, false_or] at ih
      by_cases hc : cur = []
      · simp only [hc, if_true, ih]
        simp
        omega
      · have hc' : cur ≠ [] ∨ False := Or.inl hc
        simp only [hc, if_false, List.length_cons, ih, Bool.false_eq_true, hc', if_true]
        omega
    · have hsw : startsWord (a :: t) = true := by simp [startsWord, ha]
      have ih := strtokAll_length t (cur ++ [a]) ht
      simp only [List.mem_singleton, ha, if_false, false_and, ih, hsw]
      simp

theorem splitLine_store_eq (fileNameMax : Nat) :
    ∀ (toks : List (List Nat)) (pos : Nat) (elements : List (Option (List Nat))),
      pos + toks.length ≤ elements.length →
      splitLine.store fileNameMax toks pos elements =
        .done (pos + toks.length,
          elements.take pos ++ toks.map (fun e => some (e.take fileNameMax)) ++
            elements.drop (pos + toks.length)) := by
  intro toks
  induction toks with
  | nil => intro pos elements _; simp [splitLine.store]
  | cons e rest ih =>
    intro pos elements h
    simp only [List.length_cons] at h
    have hlt : ¬ elements.length ≤ pos := by omega
    unfold splitLine.store
    simp only [hlt, if_false]
    rw [ih (pos + 1) _ (by simp only [List.length_set]; omega)]
    have h1 : (elements.set pos (some (e.take fileNameMax))).take (pos + 1) =
        elements.take pos ++ [some (e.take fileNameMax)] := by
      rw [List.set_eq_take_append_cons_drop, if_pos (by omega), List.take_append_eq_append_take]
      simp [List.take_take, List.length_take, Nat.min_eq_left (by omega : pos ≤ elements.length)]
    have h2 : (elements.set pos (some (e.take fileNameMax))).drop (pos + 1 + rest.length) =
        elements.drop (pos + 1 + rest.length) := by
      rw [List.drop_set_of_lt _ _ (by omega)]
    rw [h1, h2]
    simp only [List.length_cons, List.map_cons, List.append_assoc, List.singleton_append,
      Nat.add_assoc, Nat.add_comm 1]


theorem splitLine_count_eq_pairs : ∀ (s : List Nat), (∀ b ∈ s, b ≠ 0) →
    splitLine.count s 0 = spaceWordPairs s
  | [], _ => rfl
  | a :: t, hs => by
    have ht : ∀ b ∈ t, b ≠ 0 := fun b hb => hs b (List.mem_cons_of_mem _ hb)
    rw [splitLine_count_cons a t ht, splitLine_count_eq_pairs t ht]
    cases t with
    | nil => simp [spaceWordPairs, startsWord]
    | cons b t' =>
      simp only [spaceWordPairs, List.tail_cons, List.zip_cons_cons, List.countP_cons,
        startsWord]
      by_cases h : a = 32 <;> by_cases h2 : b = 32 <;> simp [h, h2]
      omega

theorem set_none_append_replicate (l : List (Option (List Nat))) (k : Nat) (hk : 0 < k) :
    (l ++ List.replicate k none).set l.length none = l ++ List.replicate k none := by
  induction l with
  | nil =>
    cases k with
    | zero => omega
    | succ k => simp [List.replicate_succ]
  | cons a l ih => simp [ih]

/-- C19.  `splitLine` stays inside its token array: for every input line, with the space
as the only delimiter, `splitLine` returns; the number of tokens is at most `c + 1`, where
`c`, the value its counting loop computes, is the number of positions holding a space
directly followed by a non-space character; the array has `c + 2` slots, which hold the
copied tokens in order followed by `NULL` in every remaining slot (at least one), and
`*count` is the number of tokens. -/
theorem splitLine_within_slots (fileNameMax : Nat) (str : List Nat) :
    ∃ r, splitLine [32] fileNameMax str = .done r ∧
      splitLine.count (cstr str) 0 = spaceWordPairs (cstr str) ∧
      r.count = (strtokAll [32] (cstr str) []).length ∧
      r.count ≤ spaceWordPairs (cstr str) + 1 ∧
      r.elements.length = spaceWordPairs (cstr str) + 2 ∧
      r.elements =
        (strtokAll [32] (cstr str) []).map (fun e => some (e.take fileNameMax)) ++
          List.replicate (spaceWordPairs (cstr str) + 2 - r.count) none := by
  have hc := splitLine_count_eq_pairs (cstr str) (cstr_nulFree str)
  have hlen := strtokAll_length (cstr str) [] (cstr_nulFree str)
  rw [hc] at hlen
  have hle : (strtokAll [32] (cstr str) []).length ≤ spaceWordPairs (cstr str) + 1 := by
    rw [hlen]; split <;> omega
  have hstore := splitLine_store_eq fileNameMax (strtokAll [32] (cstr str) []) 0
    (List.replicate (spaceWordPairs (cstr str) + 2) none)
    (by simp only [List.length_replicate]; omega)
  simp only [Nat.zero_add, List.take_zero, List.nil_append, List.drop_replicate] at hstore
  have hnot : ¬ ((strtokAll [32] (cstr str) []).map
      (fun (e : List Nat) => some (e.take fileNameMax)) ++
      List.replicate (spaceWordPairs (cstr str) + 2 - (strtokAll [32] (cstr str) []).length)
        none).length ≤ (strtokAll [32] (cstr str) []).length := by
    simp only [List.length_append, List.length_map, List.length_replicate]
    omega
  have hset := set_none_append_replicate
    ((strtokAll [32] (cstr str) []).map (fun (e : List Nat) => some (e.take fileNameMax)))
    (spaceWordPairs (cstr str) + 2 - (strtokAll [32] (cstr str) []).length) (by omega)
  rw [List.length_map] at hset
  unfold splitLine
  simp only [hc, hstore, hnot, if_false, hset]
  refine ⟨_, rfl, trivial, rfl, hle, ?_, rfl⟩
  simp only [List.length_append, List.length_map, List.length_replicate]
  omega

/-- With a second delimiter the array is too small: for the delimiters space and tab and
the line `a<TAB>b`, two slots are allocated and the terminating `NULL` goes to a third. -/
theorem splitLine_tab_outOfBounds : splitLine [32, 9] 4096 [97, 9, 98] = .outOfBounds := by
  decide


/-! ## `isValidIPV4` -/

/-- C16, the code at failing inputs: `isValidIPV4` returns 1 for `+1.2.3.4` (a sign),
`1.2.3.4 ` (a trailing space), ` 1.2.3.4` (a leading space), `1. 2.3.4` (a space inside)
and `-0.0.0.0`, none of which is dotted-quad text. -/
theorem isValidIPV4_accepts_sign_and_space :
    isValidIPV4 [43, 49, 46, 50, 46, 51, 46, 52] = 1 ∧
      isDottedQuad [43, 49, 46, 50, 46, 51, 46, 52] = false ∧
      isValidIPV4 [49, 46, 50, 46, 51, 46, 52, 32] = 1 ∧
      isDottedQuad [49, 46, 50, 46, 51, 46, 52, 32] = false ∧
      isValidIPV4 [32, 49, 46, 50, 46, 51, 46, 52] = 1 ∧
      isDottedQuad [32, 49, 46, 50, 46, 51, 46, 52] = false ∧
      isValidIPV4 [49, 46, 32, 50, 46, 51, 46, 52] = 1 ∧
      isDottedQuad [49, 46, 32, 50, 46, 51, 46, 52] = false ∧
      isValidIPV4 [45, 48, 46, 48, 46, 48, 46, 48] = 1 ∧
      isDottedQuad [45, 48, 46, 48, 46, 48, 46, 48] = false := by
  decide

theorem isOctetText_iff (t : List Nat) :
    isOctetText t = true ↔
      1 ≤ t.length ∧ t.length ≤ 3 ∧ t.all isDigitChar = true ∧ decimalValue t ≤ 255 := by
  simp [isOctetText, and_assoc]

theorem isspace_digit (c : Nat) (hc : isDigitChar c = true) : isspace c = false := by
  have := (isDigitChar_iff c).mp hc
  unfold isspace
  have h1 : ¬ c = 32 := by omega
  have h2 : ¬ c ≤ 13 := by omega
  simp [h1, h2]

/-- One `%3u` conversion on a number of a dotted quad that is followed by a dot or by the
end of the string reads exactly that number. -/
theorem scanf_3u_octet (a r : List Nat) (ha : isOctetText a = true)
    (hr : r = [] ∨ ∃ t, r = 46 :: t) :
    scanf_3u (a ++ r) = some (decimalValue a, r) := by
  obtain ⟨h1, h3, hall, -⟩ := (isOctetText_iff a).mp ha
  have hstop : (r.take (3 - a.length)).takeWhile isDigitChar = [] := by
    rcases hr with rfl | ⟨t, rfl⟩
    · simp
    · cases h : 3 - a.length with
      | zero => simp
      | succ n => simp [List.takeWhile_cons, isDigitChar]
  have hdigits : ((a ++ r).take 3).takeWhile isDigitChar = a := by
    rw [List.take_append_eq_append_take, List.take_of_length_le h3,
      List.takeWhile_append_of_pos (fun x hx => List.all_eq_true.mp hall x hx), hstop,
      List.append_nil]
  have hval := decDigits_eq a hall 0
  simp only [Nat.zero_mul, Nat.zero_add] at hval
  cases a with
  | nil => simp at h1
  | cons c a' =>
    simp only [List.all_cons, Bool.and_eq_true] at hall
    have hc := (isDigitChar_iff c).mp hall.1
    have h45 : ¬ c = 45 := by omega
    have h43 : ¬ c = 43 := by omega
    have hs1 : (some c == some 43) = false := by simp [h43]
    have hs2 : (some c == some 45) = false := by simp [h45]
    have hne : ¬ (c :: a' = []) := by simp
    unfold scanf_3u
    simp only [List.cons_append, List.dropWhile_cons, isspace_digit c hall.1,
      List.head?_cons, hs1, hs2, Bool.or_self, Bool.false_eq_true, if_false]
    simp only [List.cons_append] at hdigits
    rw [hdigits]
    simp only [hne, if_false, hval, List.length_cons]
    congr 2
    rw [← List.cons_append, ← List.length_cons c a', List.drop_left]


theorem octet_nulFree (a : List Nat) (ha : isOctetText a = true) : ∀ x ∈ a, x ≠ 0 :=
  all_digits_nulFree a ((isOctetText_iff a).mp ha).2.2.1

theorem sscanfIPV4_of_octets (a b c d : List Nat) (ha : isOctetText a = true)
    (hb : isOctetText b = true) (hc : isOctetText c = true) (hd : isOctetText d = true) :
    sscanfIPV4 (a ++ 46 :: (b ++ 46 :: (c ++ 46 :: d))) =
      ⟨4, [decimalValue a, decimalValue b, decimalValue c, decimalValue d], []⟩ := by
  have e1 := scanf_3u_octet a (46 :: (b ++ 46 :: (c ++ 46 :: d))) ha (Or.inr ⟨_, rfl⟩)
  have e2 := scanf_3u_octet b (46 :: (c ++ 46 :: d)) hb (Or.inr ⟨_, rfl⟩)
  have e3 := scanf_3u_octet c (46 :: d) hc (Or.inr ⟨_, rfl⟩)
  have e4 := scanf_3u_octet d [] hd (Or.inl rfl)
  rw [List.append_nil] at e4
  have e5 : scanf_s [] = [] := rfl
  unfold sscanfIPV4
  simp only [e1, scanf_dot, Option.some_bind, e2, e3, e4, e5, if_true]

/-- Every dotted quad, four numbers of 1 to 3 digits and at most 255 joined by dots, is
accepted. -/
theorem isValidIPV4_of_octets (a b c d : List Nat) (ha : isOctetText a = true)
    (hb : isOctetText b = true) (hc : isOctetText c = true) (hd : isOctetText d = true) :
    isValidIPV4 (a ++ 46 :: (b ++ 46 :: (c ++ 46 :: d))) = 1 := by
  have hnul : ∀ x ∈ a ++ 46 :: (b ++ 46 :: (c ++ 46 :: d)), x ≠ 0 := by
    intro x hx
    simp only [List.mem_append, List.mem_cons] at hx
    rcases hx with h | h | h | h | h | h | h
    · exact octet_nulFree a ha x h
    · omega
    · exact octet_nulFree b hb x h
    · omega
    · exact octet_nulFree c hc x h
    · omega
    · exact octet_nulFree d hd x h
  obtain ⟨a1, a3, -, av⟩ := (isOctetText_iff a).mp ha
  obtain ⟨b1, b3, -, bv⟩ := (isOctetText_iff b).mp hb
  obtain ⟨c1, c3, -, cv⟩ := (isOctetText_iff c).mp hc
  obtain ⟨d1, d3, -, dv⟩ := (isOctetText_iff d).mp hd
  have hlen : ¬ (strlen (a ++ 46 :: (b ++ 46 :: (c ++ 46 :: d))) < 7 ∨
      strlen (a ++ 46 :: (b ++ 46 :: (c ++ 46 :: d))) > 15) := by
    unfold strlen
    rw [cstr_of_nulFree _ hnul]
    simp only [List.length_append, List.length_cons]
    omega
  unfold isValidIPV4
  simp only [hlen, if_false, cstr_of_nulFree _ hnul, sscanfIPV4_of_octets a b c d ha hb hc hd]
  simp
  omega

theorem splitDots_ne_nil (s : List Nat) : splitDots s ≠ [] := by
  cases s with
  | nil => simp [splitDots]
  | cons c t =>
    unfold splitDots
    split
    · simp
    · split <;> simp

/-- A string is its parts joined by dots. -/
theorem splitDots_four (s a b c d : List Nat) (h : splitDots s = [a, b, c, d]) :
    s = a ++ 46 :: (b ++ 46 :: (c ++ 46 :: d)) := by
  have key : ∀ (s : List Nat) (l : List (List Nat)), splitDots s = l →
      s = (l.intersperse [46]).flatten := by
    intro s
    induction s with
    | nil => intro l hl; subst hl; simp [splitDots]
    | cons x t ih =>
      intro l hl
      unfold splitDots at hl
      have hne := splitDots_ne_nil t
      split at hl
      · rename_i hx
        subst hl
        cases hsd : splitDots t with
        | nil => exact absurd hsd hne
        | cons h r =>
          have := ih _ hsd
          simp [hx, this, List.intersperse]
      · cases hsd : splitDots t with
        | nil => exact absurd hsd hne
        | cons h r =>
          rw [hsd] at hl
          simp only at hl
          subst hl
          have := ih _ hsd
          rw [this]
          cases r <;> simp [List.intersperse]
  have := key s _ h
  simpa [List.intersperse] using this

/-- Every valid dotted-quad text is accepted: `isValidIPV4` returns 1 for it. -/
theorem isValidIPV4_of_dottedQuad (s : List Nat) (h : isDottedQuad s = true) :
    isValidIPV4 s = 1 := by
  simp only [isDottedQuad, Bool.and_eq_true, decide_eq_true_eq] at h
  obtain ⟨h4, hall⟩ := h
  match hs : splitDots s, h4 with
  | [a, b, c, d], _ =>
    rw [hs] at hall
    simp only [List.all_cons, List.all_nil, Bool.and_true, Bool.and_eq_true] at hall
    rw [splitDots_four s a b c d hs]
    exact isValidIPV4_of_octets a b c d hall.1 hall.2.1 hall.2.2.1 hall.2.2.2


end Ftp
